import Mathlib

/-!
Shallow embedding of `recordlinkage/algorithms/string.py`: pairwise string
similarity algorithms (Jaro, Jaro-Winkler, Levenshtein, Damerau-Levenshtein,
q-gram, cosine, Smith-Waterman, iterative longest-common-substring).

Modelling conventions:
* A Python string is a `List Char`; a possibly-missing value (`np.nan` slot of a
  pandas Series) is an `Option (List Char)`; a numeric score that may be `NaN`
  or `None` is an `Option ℚ` (or `Option ℝ` for cosine, which takes square
  roots).  Python floats are idealized as exact rationals / reals.
* A raised Python exception is `Except.error`: `lengthMismatch` is the
  `ValueError('Arrays or Series have to be same length.')`, `configError` the
  `AssertionError` of `smith_waterman_similarity`, and `external` any other
  exception (`ZeroDivisionError` of pure-Python division, errors raised by the
  collaborator `jellyfish` / `sklearn` libraries, ...).
* The collaborator primitives (`jellyfish.jaro_distance`, etc.) are not part of
  this repository; per-pair wrappers take them as explicit function parameters
  returning `Except Err _`.
* numpy divisions (`np.true_divide`, `np.divide`, division by a numpy integer)
  return `nan` on `0/0` with a suppressed warning instead of raising; they are
  modelled by an explicit zero test yielding `none`.  Pure-Python `/` raises
  `ZeroDivisionError` on a zero denominator; it is modelled by an explicit zero
  test yielding `.error .external`.
-/

inductive Err where
  | lengthMismatch : Err
  | configError : Err
  | external : Err
deriving DecidableEq, Repr

deriving instance DecidableEq for Except

/-- Sequentialization of per-row results, as `pandas.DataFrame.apply` does:
rows are computed in order and the first raised exception propagates. -/
def exSeq : List (Except Err α) → Except Err (List α)
  | [] => .ok []
  | x :: xs =>
    match x with
    | .error e => .error e
    | .ok v =>
      match exSeq xs with
      | .error e => .error e
      | .ok vs => .ok (v :: vs)

/-- `pandas.concat([s1, s2], axis=1, ignore_index=True)` on two Series with
default range indexes: rows are outer-joined on the index, so the result has
`max` length and the shorter Series is padded with missing values. -/
def outerAlign (s1 s2 : List (Option (List Char))) :
    List (Option (List Char) × Option (List Char)) :=
  (List.range (max s1.length s2.length)).map
    (fun i => (s1.getD i none, s2.getD i none))

/-! ## Edit-distance wrappers (`jaro_similarity` ... `damerau_levenshtein_similarity`)

Each per-row function evaluates the collaborator primitive inside
`try/except`; with a missing value on either side the primitive raises
(`TypeError` on a float argument), the handler sees `pandas.isnull` true and
returns `nan`; with both values present an exception is re-raised unchanged. -/

def jaro_apply (prim : List Char → List Char → Except Err ℚ)
    (x0 x1 : Option (List Char)) : Except Err (Option ℚ) :=
  match x0, x1 with
  | some a, some b =>
    match prim a b with
    | .ok v => .ok (some v)
    | .error e => .error e
  | _, _ => .ok none

def jaro_winkler_apply (prim : List Char → List Char → Except Err ℚ)
    (x0 x1 : Option (List Char)) : Except Err (Option ℚ) :=
  match x0, x1 with
  | some a, some b =>
    match prim a b with
    | .ok v => .ok (some v)
    | .error e => .error e
  | _, _ => .ok none

/-- `1 - jellyfish.levenshtein_distance(x[0], x[1]) / np.max([len(x[0]), len(x[1])])`.
The denominator is a numpy integer, so `0 / 0` yields `nan` with a suppressed
warning rather than raising. -/
def levenshtein_apply (dist : List Char → List Char → Except Err ℕ)
    (x0 x1 : Option (List Char)) : Except Err (Option ℚ) :=
  match x0, x1 with
  | some a, some b =>
    match dist a b with
    | .ok d =>
      if max a.length b.length = 0 then .ok none
      else .ok (some (1 - (d : ℚ) / (max a.length b.length : ℕ)))
    | .error e => .error e
  | _, _ => .ok none

def damerau_levenshtein_apply (dist : List Char → List Char → Except Err ℕ)
    (x0 x1 : Option (List Char)) : Except Err (Option ℚ) :=
  match x0, x1 with
  | some a, some b =>
    match dist a b with
    | .ok d =>
      if max a.length b.length = 0 then .ok none
      else .ok (some (1 - (d : ℚ) / (max a.length b.length : ℕ)))
    | .error e => .error e
  | _, _ => .ok none

/-- `jaro_similarity` performs no length check: it concatenates the two Series
(outer-aligning them) and applies the per-row function. -/
def jaro_similarity (prim : List Char → List Char → Except Err ℚ)
    (s1 s2 : List (Option (List Char))) : Except Err (List (Option ℚ)) :=
  exSeq ((outerAlign s1 s2).map (fun t => jaro_apply prim t.1 t.2))

def jarowinkler_similarity (prim : List Char → List Char → Except Err ℚ)
    (s1 s2 : List (Option (List Char))) : Except Err (List (Option ℚ)) :=
  exSeq ((outerAlign s1 s2).map (fun t => jaro_winkler_apply prim t.1 t.2))

def levenshtein_similarity (dist : List Char → List Char → Except Err ℕ)
    (s1 s2 : List (Option (List Char))) : Except Err (List (Option ℚ)) :=
  exSeq ((outerAlign s1 s2).map (fun t => levenshtein_apply dist t.1 t.2))

def damerau_levenshtein_similarity (dist : List Char → List Char → Except Err ℕ)
    (s1 s2 : List (Option (List Char))) : Except Err (List (Option ℚ)) :=
  exSeq ((outerAlign s1 s2).map (fun t => damerau_levenshtein_apply dist t.1 t.2))

/-! ## n-gram vector-space metrics (`qgram_similarity`, `cosine_similarity`)

The sklearn `CountVectorizer` is a collaborator; the analysis step (lowercase,
unicode accent stripping, and `'char'` / `'char_wb'` n-gram extraction) is
abstracted as an `analyzer : List Char → List (List Char)` parameter.
`charNgrams`/`charAnalyzer` give the concrete `analyzer='char'` extraction used
when `include_wb=False` (for ASCII input, where lowercasing and accent
stripping are the identity). -/

/-- All contiguous substrings of length `n` (sklearn `_char_ngrams` inner loop). -/
def charNgrams (n : ℕ) (s : List Char) : List (List Char) :=
  (List.range (s.length + 1 - n)).map (fun i => (s.drop i).take n)

/-- sklearn `'char'` analyzer for `ngram_range = (n1, n2)`. -/
def charAnalyzer (n1 n2 : ℕ) (s : List Char) : List (List Char) :=
  (List.range' n1 (n2 + 1 - n1)).flatMap (fun n => charNgrams n s)

/-- The fitted vocabulary: the set of distinct n-grams over all documents. -/
def vocabOf (analyzer : List Char → List (List Char))
    (docs : List (List Char)) : Finset (List Char) :=
  (docs.flatMap analyzer).toFinset

/-- `_metric_sparse_euclidean` for one row: `u.minimum(v).sum(axis=1)` over
`np.maximum(u.sum(axis=1), v.sum(axis=1))`; `np.true_divide` turns the `0/0`
of two all-zero rows into `nan` (suppressed warning). -/
def qgramScore (analyzer : List Char → List (List Char))
    (V : Finset (List Char)) (a b : List Char) : Option ℚ :=
  let ta := analyzer a
  let tb := analyzer b
  let matchN : ℕ := ∑ g ∈ V, min (ta.count g) (tb.count g)
  let totalN : ℕ := max (∑ g ∈ V, ta.count g) (∑ g ∈ V, tb.count g)
  if totalN = 0 then none else some ((matchN : ℚ) / (totalN : ℚ))

def qgram_similarity (analyzer : List Char → List (List Char))
    (s1 s2 : List (Option (List Char))) : Except Err (List (Option ℚ)) :=
  if s1.length ≠ s2.length then .error .lengthMismatch
  else if s1.length = 0 then .ok []
  else
    let d1 := s1.map (fun o => o.getD [])   -- fillna('')
    let d2 := s2.map (fun o => o.getD [])
    let V := vocabOf analyzer (d1 ++ d2)
    -- CountVectorizer.fit_transform raises ValueError on an empty vocabulary
    if V = ∅ then .error .external
    else .ok ((d1.zip d2).map (fun t => qgramScore analyzer V t.1 t.2))

/-- `_metric_sparse_cosine` for one row: `v.multiply(u).sum` over the product
of the two row norms; `np.divide` turns the degenerate `0/0` (a zero row, whose
numerator is then also zero) into `nan` with a suppressed warning. -/
noncomputable def cosineScore (analyzer : List Char → List (List Char))
    (V : Finset (List Char)) (a b : List Char) : Option ℝ :=
  let ta := analyzer a
  let tb := analyzer b
  let na : ℝ := Real.sqrt (∑ g ∈ V, ((ta.count g : ℝ)) ^ 2)
  let nb : ℝ := Real.sqrt (∑ g ∈ V, ((tb.count g : ℝ)) ^ 2)
  let ab : ℝ := ∑ g ∈ V, (tb.count g : ℝ) * (ta.count g : ℝ)
  if na * nb = 0 then none else some (ab / (na * nb))

noncomputable def cosine_similarity (analyzer : List Char → List (List Char))
    (s1 s2 : List (Option (List Char))) : Except Err (List (Option ℝ)) :=
  if s1.length ≠ s2.length then .error .lengthMismatch
  else if s1.length = 0 then .ok []
  else
    let d1 := s1.map (fun o => o.getD [])
    let d2 := s2.map (fun o => o.getD [])
    let V := vocabOf analyzer (d1 ++ d2)
    if V = ∅ then .error .external
    else .ok ((d1.zip d2).map (fun t => cosineScore analyzer V t.1 t.2))

/-! ## Smith-Waterman (`smith_waterman_similarity`)

The imperative fill writes each cell `m[x][y]` / `trace[x][y]` exactly once,
reading only `m[x-1][y-1]`, `m[x-1][y]` (with `trace[x-1][y]`) and `m[x][y-1]`
(with `trace[x][y-1]`), all already final; the loop is therefore the
recurrence `swM` below.  Row and column `0` keep their initial `0` score and
empty trace list. -/

inductive Tag where
  | D : Tag
  | A : Tag
  | L : Tag
deriving DecidableEq, Repr

structure Cell where
  score : ℚ
  trace : List Tag
deriving DecidableEq, Repr

structure SWParams where
  matchScore : ℚ      -- `match=5`
  mismatchScore : ℚ   -- `mismatch=-5`
  gapStart : ℚ        -- `gap_start=-5`
  gapContinue : ℚ     -- `gap_continue=-1`
  norm : String       -- `norm="mean"`
deriving DecidableEq, Repr

def zeroCell : Cell := ⟨0, []⟩

/-- One loop body iteration: compute `diagonal`, `gap_left`, `gap_above` (gap
moves cost `gap_continue` exactly when the predecessor cell's trace list
contains the same direction), clamp at zero, and record the tags (`"D"`,
`"A"`, `"L"`, in the source's append order) that equal a positive score. -/
def nextCell (p : SWParams) (c1 c2 : Char) (diagC px py : Cell) : Cell :=
  let diagonal := diagC.score + (if c1 = c2 then p.matchScore else p.mismatchScore)
  let gap_left := px.score + (if Tag.L ∈ px.trace then p.gapContinue else p.gapStart)
  let gap_above := py.score + (if Tag.A ∈ py.trace then p.gapContinue else p.gapStart)
  let score := max diagonal (max gap_left gap_above)
  if score ≤ 0 then zeroCell
  else
    ⟨score,
      (if score = diagonal then [Tag.D] else []) ++
      (if score = gap_above then [Tag.A] else []) ++
      (if score = gap_left then [Tag.L] else [])⟩

/-- One row of the matrix, built left to right; `prev` is the previous row.
Cell `(x, 0)` keeps its initial value `⟨0, []⟩`. -/
def swRow (p : SWParams) (c1 : Char) (s2 : List Char) (prev : ℕ → Cell) : ℕ → Cell
  | 0 => zeroCell
  | y + 1 => nextCell p c1 (s2.getD y ' ') (prev y) (prev (y + 1)) (swRow p c1 s2 prev y)

/-- The score/trace matrix: `swM p s1 s2 x y` is cell `(x, y)`, satisfying
`swM (x+1) (y+1) = nextCell p s1[x] s2[y] (swM x y) (swM x (y+1)) (swM (x+1) y)`
(see `swM_succ_succ`), which is what the row-major imperative fill computes. -/
def swM (p : SWParams) (s1 s2 : List Char) : ℕ → ℕ → Cell
  | 0, _ => zeroCell
  | x + 1, y => swRow p (s1.getD x ' ') s2 (swM p s1 s2 x) y

theorem swM_succ_succ (p : SWParams) (s1 s2 : List Char) (x y : ℕ) :
    swM p s1 s2 (x + 1) (y + 1) =
      nextCell p (s1.getD x ' ') (s2.getD y ' ')
        (swM p s1 s2 x y) (swM p s1 s2 x (y + 1)) (swM p s1 s2 (x + 1) y) := rfl

/-- `highest`: the maximum value written to any cell (`0` if nothing positive
was ever written; cells of row/column `0` are never written). -/
def compute_score (p : SWParams) (str1 str2 : List Char) : ℚ :=
  ((List.range' 1 str1.length).flatMap (fun x =>
    (List.range' 1 str2.length).map (fun y => (swM p str1 str2 x y).score))).foldl max 0

namespace SW

/-- The `normalize` inner function of `smith_waterman_similarity`.  The
divisions are pure Python, so a zero denominator (only possible when
`match = 0`, since the string lengths are positive at the call site) raises
`ZeroDivisionError`; an unrecognized `norm` falls through and returns `None`. -/
def normalize (p : SWParams) (l1 l2 : ℕ) (score : ℚ) : Except Err (Option ℚ) :=
  if p.norm = "min" then
    if ((min l1 l2 : ℕ) : ℚ) * p.matchScore = 0 then .error .external
    else .ok (some (score / (((min l1 l2 : ℕ) : ℚ) * p.matchScore)))
  else if p.norm = "max" then
    if ((max l1 l2 : ℕ) : ℚ) * p.matchScore = 0 then .error .external
    else .ok (some (score / (((max l1 l2 : ℕ) : ℚ) * p.matchScore)))
  else if p.norm = "mean" then
    if ((l1 : ℚ) + (l2 : ℚ)) * p.matchScore = 0 then .error .external
    else .ok (some (2 * score / (((l1 : ℚ) + (l2 : ℚ)) * p.matchScore)))
  else .ok none

end SW

/-- `sw_apply`: empty strings short-circuit to `0`; a missing value on either
side makes `len(...)` raise `TypeError`, caught and turned into `nan`; any
exception on a present pair is re-raised. -/
def sw_apply (p : SWParams) (t0 t1 : Option (List Char)) : Except Err (Option ℚ) :=
  match t0, t1 with
  | some str1, some str2 =>
    if str1.length = 0 ∨ str2.length = 0 then .ok (some 0)
    else SW.normalize p str1.length str2.length (compute_score p str1 str2)
  | _, _ => .ok none

def smith_waterman_similarity (p : SWParams) (s1 s2 : List (Option (List Char))) :
    Except Err (List (Option ℚ)) :=
  -- assert match >= max(mismatch, gap_start, gap_continue)
  if ¬ (max p.mismatchScore (max p.gapStart p.gapContinue) ≤ p.matchScore) then
    .error .configError
  else if s1.length ≠ s2.length then .error .lengthMismatch
  else if s1.length = 0 then .ok []
  else exSeq ((s1.zip s2).map (fun t => sw_apply p t.1 t.2))

/-! ## Iterative longest common substring (`longest_common_substring_similarity`) -/

/-- The suffix-run-length matrix of `lcs_iteration`:
`m[x][y] = m[x-1][y-1] + 1` if `str1[x-1] == str2[y-1]`, else `0`. -/
def lcsM (s1 s2 : List Char) : ℕ → ℕ → ℕ
  | 0, _ => 0
  | _ + 1, 0 => 0
  | x + 1, y + 1 => if s1.getD x ' ' = s2.getD y ' ' then lcsM s1 s2 x y + 1 else 0

/-- The row-major scan of `lcs_iteration` tracking `(longest, x_longest,
y_longest)`, updated only on a strict improvement `m[x][y] > longest` (so the
first maximal occurrence in scan order is kept). -/
def lcsScan (s1 s2 : List Char) : ℕ × ℕ × ℕ :=
  ((List.range' 1 s1.length).flatMap (fun x =>
    (List.range' 1 s2.length).map (fun y => (x, y)))).foldl
    (fun acc xy =>
      let v := lcsM s1 s2 xy.1 xy.2
      if acc.1 < v then (v, xy.1, xy.2) else acc)
    (0, 0, 0)

/-- `lcs_iteration`: one extraction round.  Returns the excised pair
(`str[0:pos-longest] + str[pos:]`) and the length found; a missing value or a
string shorter than `min_len` yields `((None, None), 0)`. -/
def lcs_iteration (minLen : ℕ)
    (p : Option (List Char) × Option (List Char)) :
    (Option (List Char) × Option (List Char)) × ℕ :=
  match p with
  | (some str1, some str2) =>
    if min str1.length str2.length < minLen then ((none, none), 0)
    else
      let r := lcsScan str1 str2
      let longest := r.1
      let xL := r.2.1
      let yL := r.2.2
      ((some (str1.take (xL - longest) ++ str1.drop xL),
        some (str2.take (yL - longest) ++ str2.drop yL)), longest)
  | _ => ((none, none), 0)

/-- The `while True` accumulation loop of `lcs_apply`.  `fuel` bounds the
number of rounds; the caller passes `len(a) + len(b) + 1`, which is sufficient
whenever `min_len ≥ 1` because every accepted round removes `iter_lcs ≥ 1`
characters from each string (with `min_len = 0` the Python loop never
terminates on strings with no common character). -/
def lcs_loop (minLen : ℕ) : ℕ → (Option (List Char) × Option (List Char)) → ℕ → ℕ
  | 0, _, acc => acc
  | fuel + 1, pair, acc =>
    let r := lcs_iteration minLen pair
    if r.2 < minLen then acc
    else lcs_loop minLen fuel r.1 (acc + r.2)

/-- The `normalize_lcs` inner function.  Divisions are pure Python: a zero
denominator raises `ZeroDivisionError`; an unrecognized `norm` emits a warning
(an effect not modelled here) and falls back to the dice formula. -/
def normalize_lcs (norm : String) (la lb : ℕ) (v : ℕ) : Except Err ℚ :=
  if norm = "overlap" then
    if min la lb = 0 then .error .external
    else .ok ((v : ℚ) / ((min la lb : ℕ) : ℚ))
  else if norm = "jaccard" then
    if (la : ℚ) + (lb : ℚ) - |(v : ℚ)| = 0 then .error .external
    else .ok ((v : ℚ) / ((la : ℚ) + (lb : ℚ) - |(v : ℚ)|))
  else if norm = "dice" then
    if la + lb = 0 then .error .external
    else .ok ((v : ℚ) * 2 / ((la : ℚ) + (lb : ℚ)))
  else
    if la + lb = 0 then .error .external
    else .ok ((v : ℚ) * 2 / ((la : ℚ) + (lb : ℚ)))

/-- `lcs_apply`: missing on either side gives `nan`; otherwise both orderings
are accumulated, each normalized against the original pair's lengths (the
first raised `ZeroDivisionError` propagates — there is no `try` here), and the
two normalized values are averaged. -/
def lcs_apply (norm : String) (minLen : ℕ)
    (x0 x1 : Option (List Char)) : Except Err (Option ℚ) :=
  match x0, x1 with
  | some a, some b =>
    let fuel := a.length + b.length + 1
    let acc1 := lcs_loop minLen fuel (some a, some b) 0
    let acc2 := lcs_loop minLen fuel (some b, some a) 0
    match normalize_lcs norm a.length b.length acc1 with
    | .error e => .error e
    | .ok n1 =>
      match normalize_lcs norm a.length b.length acc2 with
      | .error e => .error e
      | .ok n2 => .ok (some ((n1 + n2) / 2))
  | _, _ => .ok none

def longest_common_substring_similarity (norm : String) (minLen : ℕ)
    (s1 s2 : List (Option (List Char))) : Except Err (List (Option ℚ)) :=
  if s1.length ≠ s2.length then .error .lengthMismatch
  else if s1.length = 0 then .ok []
  else exSeq ((s1.zip s2).map (fun t => lcs_apply norm minLen t.1 t.2))

/-! ## Helper lemmas -/

theorem exSeq_error_mem {l : List (Except Err α)} {e : Err}
    (h : exSeq l = .error e) : Except.error e ∈ l := by
  induction l with
  | nil => simp [exSeq] at h
  | cons x xs ih =>
    cases x with
    | error e' =>
      simp [exSeq] at h
      simp [h]
    | ok v =>
      simp only [exSeq] at h
      cases hx : exSeq xs with
      | error e' =>
        rw [hx] at h
        cases h
        exact List.mem_cons_of_mem _ (ih hx)
      | ok vs => rw [hx] at h; cases h

theorem exSeq_ok_length {l : List (Except Err α)} {v : List α}
    (h : exSeq l = .ok v) : v.length = l.length := by
  induction l generalizing v with
  | nil => cases h; rfl
  | cons x xs ih =>
    cases x with
    | error e => simp [exSeq] at h
    | ok w =>
      simp only [exSeq] at h
      cases hx : exSeq xs with
      | error e' => rw [hx] at h; cases h
      | ok vs =>
        rw [hx] at h
        cases h
        simp [ih hx]

theorem exSeq_map_congr {l : List β} {f g : β → Except Err α}
    (h : ∀ x ∈ l, f x = g x) : exSeq (l.map f) = exSeq (l.map g) := by
  induction l with
  | nil => rfl
  | cons x xs ih =>
    simp only [List.map_cons, exSeq, h x (List.mem_cons_self x xs)]
    rw [ih (fun y hy => h y (List.mem_cons_of_mem _ hy))]

theorem foldl_max_init_le (l : List ℚ) (c : ℚ) : c ≤ l.foldl max c := by
  induction l generalizing c with
  | nil => exact le_refl c
  | cons x xs ih => exact le_trans (le_max_left c x) (ih (max c x))

theorem foldl_max_le_of (l : List ℚ) (c B : ℚ) (hc : c ≤ B)
    (h : ∀ a ∈ l, a ≤ B) : l.foldl max c ≤ B := by
  induction l generalizing c with
  | nil => exact hc
  | cons x xs ih =>
    exact ih (max c x) (max_le hc (h x (List.mem_cons_self x xs)))
      (fun a ha => h a (List.mem_cons_of_mem _ ha))

theorem le_foldl_max_of_mem {l : List ℚ} {a : ℚ} (c : ℚ) (ha : a ∈ l) :
    a ≤ l.foldl max c := by
  induction l generalizing c with
  | nil => cases ha
  | cons x xs ih =>
    rcases List.mem_cons.mp ha with h | h
    · subst h
      exact le_trans (le_max_right c a) (foldl_max_init_le xs (max c a))
    · exact ih (max c x) h

theorem foldl_max_eq_init_or_mem (l : List ℚ) (c : ℚ) :
    l.foldl max c = c ∨ l.foldl max c ∈ l := by
  induction l generalizing c with
  | nil => exact Or.inl rfl
  | cons x xs ih =>
    rcases ih (max c x) with h | h
    · rcases max_cases c x with ⟨hm, _⟩ | ⟨hm, _⟩
      · rw [List.foldl_cons, h, hm]
        exact Or.inl rfl
      · rw [List.foldl_cons, h, hm]
        exact Or.inr (List.mem_cons_self x xs)
    · exact Or.inr (List.mem_cons_of_mem _ h)

/-! ## Claims -/

/-- C4: for present strings `a`, `b`, `levenshtein_similarity` and
`damerau_levenshtein_similarity` score the pair as
`1 - distance(a,b) / max(len(a), len(b))`; when both strings are empty the
`0/0` division makes the result the missing-value marker (`nan`), with no
error raised. -/
theorem claim_C4 (dist dist2 : List Char → List Char → Except Err ℕ)
    (a b : List Char) (d d2 : ℕ)
    (h : dist a b = .ok d) (h2 : dist2 a b = .ok d2) :
    (0 < max a.length b.length →
      levenshtein_apply dist (some a) (some b) =
        .ok (some (1 - (d : ℚ) / ((max a.length b.length : ℕ) : ℚ))) ∧
      damerau_levenshtein_apply dist2 (some a) (some b) =
        .ok (some (1 - (d2 : ℚ) / ((max a.length b.length : ℕ) : ℚ)))) ∧
    (a = [] → b = [] →
      levenshtein_apply dist (some a) (some b) = .ok none ∧
      damerau_levenshtein_apply dist2 (some a) (some b) = .ok none) := by
  constructor
  · intro hlen
    have hne : ¬ (max a.length b.length = 0) := by omega
    constructor
    · simp [levenshtein_apply, h, hne]
    · simp [damerau_levenshtein_apply, h2, hne]
  · intro ha hb
    subst ha
    subst hb
    constructor
    · simp [levenshtein_apply, h]
    · simp [damerau_levenshtein_apply, h2]

theorem claim_C4_witness :
    (levenshtein_apply (fun _ _ => .ok 3) (some "kitten".data) (some "sitting".data) =
      .ok (some (1 - (3 : ℚ) / 7)) ∧
     damerau_levenshtein_apply (fun _ _ => .ok 3) (some "kitten".data) (some "sitting".data) =
      .ok (some (1 - (3 : ℚ) / 7))) ∧
    (levenshtein_apply (fun _ _ => .ok 0) (some []) (some []) = .ok none ∧
     damerau_levenshtein_apply (fun _ _ => .ok 0) (some []) (some []) = .ok none) := by
  constructor
  · have h := (claim_C4 (fun _ _ => .ok 3) (fun _ _ => .ok 3)
      "kitten".data "sitting".data 3 3 rfl rfl).1 (by decide)
    exact h
  · exact (claim_C4 (fun _ _ => .ok 0) (fun _ _ => .ok 0) [] [] 0 0 rfl rfl).2 rfl rfl

/-- C10: when `smith_waterman_similarity` is given a `norm` outside
`{"min", "max", "mean"}`, the `normalize` step returns `None` for a present
non-empty pair: no exception is raised, no fallback normalization is applied
(and the source contains no warning call). -/
theorem claim_C10 (p : SWParams) (a b : List Char) (l1 l2 : ℕ) (s : ℚ)
    (hmin : p.norm ≠ "min") (hmax : p.norm ≠ "max") (hmean : p.norm ≠ "mean") :
    SW.normalize p l1 l2 s = .ok none ∧
    (0 < a.length → 0 < b.length → sw_apply p (some a) (some b) = .ok none) := by
  have hn : SW.normalize p l1 l2 s = .ok none := by
    simp [SW.normalize, hmin, hmax, hmean]
  refine ⟨hn, fun ha hb => ?_⟩
  have hne : ¬ (a.length = 0 ∨ b.length = 0) := by omega
  simp only [sw_apply, if_neg hne]
  simp [SW.normalize, hmin, hmax, hmean]

theorem claim_C10_witness :
    SW.normalize ⟨5, -5, -5, -1, "bogus"⟩ 1 1 0 = .ok none ∧
    sw_apply ⟨5, -5, -5, -1, "bogus"⟩ (some "a".data) (some "a".data) = .ok none := by
  have h := claim_C10 ⟨5, -5, -5, -1, "bogus"⟩ "a".data "a".data 1 1 0
    (by decide) (by decide) (by decide)
  exact ⟨h.1, h.2 (by decide) (by decide)⟩

/-- C5: for the edit-distance, alignment and LCS per-pair scorers, a missing
value on either side yields the missing-value marker, and an exception raised
while computing a present pair (here: an error of the collaborator distance
primitive, or the `ZeroDivisionError` of the normalization steps) propagates
to the caller unchanged. -/
theorem claim_C5 :
    (∀ (prim : List Char → List Char → Except Err ℚ)
       (dist : List Char → List Char → Except Err ℕ)
       (p : SWParams) (norm : String) (minLen : ℕ)
       (x0 x1 : Option (List Char)), x0 = none ∨ x1 = none →
        jaro_apply prim x0 x1 = .ok none ∧
        jaro_winkler_apply prim x0 x1 = .ok none ∧
        levenshtein_apply dist x0 x1 = .ok none ∧
        damerau_levenshtein_apply dist x0 x1 = .ok none ∧
        sw_apply p x0 x1 = .ok none ∧
        lcs_apply norm minLen x0 x1 = .ok none) ∧
    (∀ (prim : List Char → List Char → Except Err ℚ) (a b : List Char) (e : Err),
      prim a b = .error e →
        jaro_apply prim (some a) (some b) = .error e ∧
        jaro_winkler_apply prim (some a) (some b) = .error e) ∧
    (∀ (dist : List Char → List Char → Except Err ℕ) (a b : List Char) (e : Err),
      dist a b = .error e →
        levenshtein_apply dist (some a) (some b) = .error e ∧
        damerau_levenshtein_apply dist (some a) (some b) = .error e) ∧
    (∀ (p : SWParams) (a b : List Char) (e : Err),
      ¬ (a.length = 0 ∨ b.length = 0) →
      SW.normalize p a.length b.length (compute_score p a b) = .error e →
        sw_apply p (some a) (some b) = .error e) ∧
    (∀ (norm : String) (minLen : ℕ) (a b : List Char) (e : Err),
      normalize_lcs norm a.length b.length
        (lcs_loop minLen (a.length + b.length + 1) (some a, some b) 0) = .error e →
        lcs_apply norm minLen (some a) (some b) = .error e) := by
  refine ⟨?_, ?_, ?_, ?_, ?_⟩
  · rintro prim dist p norm minLen x0 x1 (h | h) <;> subst h
    · cases x1 <;>
        exact ⟨rfl, rfl, rfl, rfl, rfl, rfl⟩
    · cases x0 <;>
        exact ⟨rfl, rfl, rfl, rfl, rfl, rfl⟩
  · intro prim a b e h
    constructor
    · simp [jaro_apply, h]
    · simp [jaro_winkler_apply, h]
  · intro dist a b e h
    constructor
    · simp [levenshtein_apply, h]
    · simp [damerau_levenshtein_apply, h]
  · intro p a b e hne h
    simp only [sw_apply, if_neg hne]
    exact h
  · intro norm minLen a b e h
    simp [lcs_apply, h]

theorem claim_C5_witness :
    jaro_apply (fun _ _ => .ok 0) none (some []) = .ok none ∧
    sw_apply ⟨5, -5, -5, -1, "mean"⟩ (some "a".data) none = .ok none ∧
    jaro_apply (fun _ _ => .error .external) (some "a".data) (some "b".data) =
      .error .external ∧
    sw_apply ⟨0, 0, 0, 0, "min"⟩ (some "a".data) (some "b".data) = .error .external ∧
    lcs_apply "dice" 2 (some []) (some []) = .error .external := by
  refine ⟨?_, ?_, ?_, ?_, ?_⟩
  · exact (claim_C5.1 (fun _ _ => .ok 0) (fun _ _ => .ok 0) ⟨5, -5, -5, -1, "mean"⟩
      "dice" 2 none (some []) (Or.inl rfl)).1
  · exact ((claim_C5.1 (fun _ _ => .ok 0) (fun _ _ => .ok 0) ⟨5, -5, -5, -1, "mean"⟩
      "dice" 2 (some "a".data) none (Or.inr rfl)).2.2.2.2).1
  · exact (claim_C5.2.1 (fun _ _ => .error .external) "a".data "b".data .external rfl).1
  · exact claim_C5.2.2.2.1 ⟨0, 0, 0, 0, "min"⟩ "a".data "b".data .external
      (by decide)
      (by norm_num +decide [SW.normalize, compute_score, swM, swRow, nextCell, zeroCell,
        List.range'])
  · exact claim_C5.2.2.2.2 "dice" 2 [] [] .external (by decide)

theorem jaro_apply_error_src {prim : List Char → List Char → Except Err ℚ}
    {x0 x1 : Option (List Char)} {e : Err}
    (h : jaro_apply prim x0 x1 = .error e) : ∃ a b, prim a b = .error e := by
  cases x0 with
  | none => simp [jaro_apply] at h
  | some a =>
    cases x1 with
    | none => simp [jaro_apply] at h
    | some b =>
      cases hp : prim a b with
      | error e' =>
        simp only [jaro_apply, hp] at h
        cases h
        exact ⟨a, b, hp⟩
      | ok v => simp [jaro_apply, hp] at h

theorem jaro_winkler_apply_error_src {prim : List Char → List Char → Except Err ℚ}
    {x0 x1 : Option (List Char)} {e : Err}
    (h : jaro_winkler_apply prim x0 x1 = .error e) : ∃ a b, prim a b = .error e := by
  cases x0 with
  | none => simp [jaro_winkler_apply] at h
  | some a =>
    cases x1 with
    | none => simp [jaro_winkler_apply] at h
    | some b =>
      cases hp : prim a b with
      | error e' =>
        simp only [jaro_winkler_apply, hp] at h
        cases h
        exact ⟨a, b, hp⟩
      | ok v => simp [jaro_winkler_apply, hp] at h

theorem levenshtein_apply_error_src {dist : List Char → List Char → Except Err ℕ}
    {x0 x1 : Option (List Char)} {e : Err}
    (h : levenshtein_apply dist x0 x1 = .error e) : ∃ a b, dist a b = .error e := by
  cases x0 with
  | none => simp [levenshtein_apply] at h
  | some a =>
    cases x1 with
    | none => simp [levenshtein_apply] at h
    | some b =>
      cases hp : dist a b with
      | error e' =>
        simp only [levenshtein_apply, hp] at h
        cases h
        exact ⟨a, b, hp⟩
      | ok v =>
        simp only [levenshtein_apply, hp] at h
        split at h <;> cases h

theorem damerau_levenshtein_apply_error_src {dist : List Char → List Char → Except Err ℕ}
    {x0 x1 : Option (List Char)} {e : Err}
    (h : damerau_levenshtein_apply dist x0 x1 = .error e) : ∃ a b, dist a b = .error e := by
  cases x0 with
  | none => simp [damerau_levenshtein_apply] at h
  | some a =>
    cases x1 with
    | none => simp [damerau_levenshtein_apply] at h
    | some b =>
      cases hp : dist a b with
      | error e' =>
        simp only [damerau_levenshtein_apply, hp] at h
        cases h
        exact ⟨a, b, hp⟩
      | ok v =>
        simp only [damerau_levenshtein_apply, hp] at h
        split at h <;> cases h

/-- C2 counterexample: with input collections of lengths `1` and `0`,
`jaro_similarity` raises no error at all: `pandas.concat` outer-joins the two
Series, padding the shorter one with a missing value, and the padded pair
scores `nan`. -/
theorem claim_C2_counterexample :
    ([some ['a']] : List (Option (List Char))).length ≠
      ([] : List (Option (List Char))).length ∧
    jaro_similarity (fun _ _ => .ok 0) [some ['a']] [] = .ok [none] := by
  constructor
  · decide
  · rfl

/-- C2 (amended): on collections of different lengths, `qgram_similarity`,
`cosine_similarity`, `smith_waterman_similarity` (with parameters passing its
assertion) and `longest_common_substring_similarity` raise the length-mismatch
error before any per-pair work; the four edit-distance wrappers (`jaro`,
`jaro-winkler`, `levenshtein`, `damerau-levenshtein`) perform no length check:
they never raise a length-mismatch error (unless the collaborator primitive
itself does) and instead return an outer-aligned result of length
`max(len(s1), len(s2))` with missing padding. -/
theorem claim_C2 (s1 s2 : List (Option (List Char))) (h : s1.length ≠ s2.length) :
    (∀ analyzer, qgram_similarity analyzer s1 s2 = .error .lengthMismatch) ∧
    (∀ analyzer, cosine_similarity analyzer s1 s2 = .error .lengthMismatch) ∧
    (∀ p : SWParams, max p.mismatchScore (max p.gapStart p.gapContinue) ≤ p.matchScore →
      smith_waterman_similarity p s1 s2 = .error .lengthMismatch) ∧
    (∀ norm minLen,
      longest_common_substring_similarity norm minLen s1 s2 = .error .lengthMismatch) ∧
    (∀ prim : List Char → List Char → Except Err ℚ,
      (∀ a b, prim a b ≠ .error .lengthMismatch) →
      jaro_similarity prim s1 s2 ≠ .error .lengthMismatch ∧
      jarowinkler_similarity prim s1 s2 ≠ .error .lengthMismatch) ∧
    (∀ dist : List Char → List Char → Except Err ℕ,
      (∀ a b, dist a b ≠ .error .lengthMismatch) →
      levenshtein_similarity dist s1 s2 ≠ .error .lengthMismatch ∧
      damerau_levenshtein_similarity dist s1 s2 ≠ .error .lengthMismatch) ∧
    (∀ (prim : List Char → List Char → Except Err ℚ) l,
      jaro_similarity prim s1 s2 = .ok l → l.length = max s1.length s2.length) := by
  refine ⟨?_, ?_, ?_, ?_, ?_, ?_, ?_⟩
  · intro analyzer
    simp [qgram_similarity, h]
  · intro analyzer
    simp [cosine_similarity, h]
  · intro p hp
    have h1 : p.mismatchScore ≤ p.matchScore := le_trans (le_max_left _ _) hp
    have h2 : p.gapStart ≤ p.matchScore :=
      le_trans (le_trans (le_max_left _ _) (le_max_right _ _)) hp
    have h3 : p.gapContinue ≤ p.matchScore :=
      le_trans (le_trans (le_max_right _ _) (le_max_right _ _)) hp
    simp [smith_waterman_similarity, h, h1, h2, h3]
  · intro norm minLen
    simp [longest_common_substring_similarity, h]
  · intro prim hprim
    constructor
    · intro hcontra
      have hmem := exSeq_error_mem hcontra
      rcases List.mem_map.mp hmem with ⟨t, _, ht⟩
      rcases jaro_apply_error_src ht with ⟨a, b, hab⟩
      exact hprim a b hab
    · intro hcontra
      have hmem := exSeq_error_mem hcontra
      rcases List.mem_map.mp hmem with ⟨t, _, ht⟩
      rcases jaro_winkler_apply_error_src ht with ⟨a, b, hab⟩
      exact hprim a b hab
  · intro dist hdist
    constructor
    · intro hcontra
      have hmem := exSeq_error_mem hcontra
      rcases List.mem_map.mp hmem with ⟨t, _, ht⟩
      rcases levenshtein_apply_error_src ht with ⟨a, b, hab⟩
      exact hdist a b hab
    · intro hcontra
      have hmem := exSeq_error_mem hcontra
      rcases List.mem_map.mp hmem with ⟨t, _, ht⟩
      rcases damerau_levenshtein_apply_error_src ht with ⟨a, b, hab⟩
      exact hdist a b hab
  · intro prim l hl
    have := exSeq_ok_length hl
    simpa [outerAlign] using this

theorem claim_C2_witness :
    qgram_similarity (charAnalyzer 2 2) [some ['a']] [] = .error .lengthMismatch ∧
    smith_waterman_similarity ⟨5, -5, -5, -1, "mean"⟩ [some ['a']] [] =
      .error .lengthMismatch ∧
    longest_common_substring_similarity "dice" 2 [some ['a']] [] =
      .error .lengthMismatch ∧
    jaro_similarity (fun _ _ => .ok 0) [some ['a']] [] ≠ .error .lengthMismatch := by
  have h := claim_C2 [some ['a']] [] (by decide)
  exact ⟨h.1 _, h.2.2.1 _ (by norm_num), h.2.2.2.1 _ _,
    (h.2.2.2.2.1 _ (fun _ _ => by simp)).1⟩

theorem lcs_loop_of_short {a b : List Char} {minLen : ℕ}
    (h : min a.length b.length < minLen) (fuel : ℕ) :
    lcs_loop minLen (fuel + 1) (some a, some b) 0 = 0 := by
  have h0 : 0 < minLen := lt_of_le_of_lt (Nat.zero_le _) h
  simp [lcs_loop, lcs_iteration, h, h0]

/-- C3 counterexample: on the pair of two present empty strings (which has
`min(len) = 0 < minLen`), `longest_common_substring_similarity` does not
return `0` — the dice normalization divides by `len(a) + len(b) = 0` and the
`ZeroDivisionError` propagates. -/
theorem claim_C3_counterexample :
    longest_common_substring_similarity "dice" 2 [some []] [some []] =
      .error .external := by decide

/-- C3 (amended): for a present pair with `min(len(a), len(b)) < minLen`, the
extraction loops stop immediately with total `0` and the score is `0` —
provided the normalization denominator is nonzero (`len(a) + len(b) > 0` for
dice/jaccard/the fallback, `min > 0` for overlap).  When the denominator is
zero (e.g. both strings empty), the division raises `ZeroDivisionError`
instead of returning `0`. -/
theorem claim_C3 (a b : List Char) (minLen : ℕ) (norm : String)
    (h : min a.length b.length < minLen) :
    (0 < a.length + b.length → norm ≠ "overlap" →
      lcs_apply norm minLen (some a) (some b) = .ok (some 0)) ∧
    (norm = "overlap" → 0 < min a.length b.length →
      lcs_apply norm minLen (some a) (some b) = .ok (some 0)) ∧
    (a = [] → b = [] → lcs_apply norm minLen (some a) (some b) = .error .external) := by
  have key1 : lcs_loop minLen (a.length + b.length + 1) (some a, some b) 0 = 0 :=
    lcs_loop_of_short h _
  have key2 : lcs_loop minLen (a.length + b.length + 1) (some b, some a) 0 = 0 := by
    have h' : min b.length a.length < minLen := by rwa [min_comm] at h
    exact lcs_loop_of_short h' (a.length + b.length)
  refine ⟨?_, ?_, ?_⟩
  · intro hlen hov
    have hne : ¬ (a = [] ∧ b = []) := by
      rintro ⟨rfl, rfl⟩
      simp at hlen
    have hQ : (a.length : ℚ) + (b.length : ℚ) ≠ 0 := by
      have hnat : ((a.length + b.length : ℕ) : ℚ) ≠ 0 := Nat.cast_ne_zero.mpr (by omega)
      push_cast at hnat
      exact hnat
    by_cases hj : norm = "jaccard"
    · simp [lcs_apply, key1, key2, normalize_lcs, hov, hj, hQ]
    · by_cases hd : norm = "dice"
      · simp [lcs_apply, key1, key2, normalize_lcs, hov, hj, hd, hne]
      · simp [lcs_apply, key1, key2, normalize_lcs, hov, hj, hd, hne]
  · intro hov hmin
    have hne : ¬ (a = [] ∨ b = []) := by
      rintro (rfl | rfl) <;> simp at hmin
    simp [lcs_apply, key1, key2, normalize_lcs, hov, hne]
  · intro ha hb
    subst ha
    subst hb
    simp only [List.length_nil, Nat.add_zero, Nat.zero_add] at key1
    by_cases hov : norm = "overlap"
    · simp [lcs_apply, key1, normalize_lcs, hov]
    · by_cases hj : norm = "jaccard"
      · simp [lcs_apply, key1, normalize_lcs, hov, hj]
      · by_cases hd : norm = "dice"
        · simp [lcs_apply, key1, normalize_lcs, hov, hj, hd]
        · simp [lcs_apply, key1, normalize_lcs, hov, hj, hd]

theorem claim_C3_witness :
    lcs_apply "dice" 2 (some ['x']) (some ['y', 'z']) = .ok (some 0) ∧
    lcs_apply "overlap" 3 (some ['x']) (some ['y', 'z']) = .ok (some 0) ∧
    lcs_apply "jaccard" 2 (some []) (some []) = .error .external := by
  refine ⟨?_, ?_, ?_⟩
  · exact (claim_C3 ['x'] ['y', 'z'] 2 "dice" (by decide)).1 (by decide) (by decide)
  · exact (claim_C3 ['x'] ['y', 'z'] 3 "overlap" (by decide)).2.1 rfl (by decide)
  · exact (claim_C3 [] [] 2 "jaccard" (by decide)).2.2 rfl rfl

/-- C1 counterexample: with bigrams and no word boundary, for `a="abc"`,
`b="abd"` the code returns `1/2`, not the claimed `1/3`: the denominator is
`np.maximum(u.sum(axis=1), v.sum(axis=1)) = max(2, 2) = 2` (the larger total
n-gram count), not the claimed `sum(max(countA[g], countB[g])) = 3`. -/
theorem claim_C1_counterexample :
    qgram_similarity (charAnalyzer 2 2) [some "abc".data] [some "abd".data] =
      .ok [some (1 / 2 : ℚ)] ∧ (1 / 2 : ℚ) ≠ 1 / 3 := by
  constructor
  · simp only [qgram_similarity]
    norm_num
    rw [if_neg (by decide)]
    simp only [qgramScore]
    rw [if_neg (by decide)]
    have hm : (∑ g ∈ vocabOf (charAnalyzer 2 2) [['a', 'b', 'c'], ['a', 'b', 'd']],
        min ((charAnalyzer 2 2 ['a', 'b', 'c']).count g)
          ((charAnalyzer 2 2 ['a', 'b', 'd']).count g)) = 1 := by decide
    have ht : (max (∑ g ∈ vocabOf (charAnalyzer 2 2) [['a', 'b', 'c'], ['a', 'b', 'd']],
        (charAnalyzer 2 2 ['a', 'b', 'c']).count g)
        (∑ g ∈ vocabOf (charAnalyzer 2 2) [['a', 'b', 'c'], ['a', 'b', 'd']],
        (charAnalyzer 2 2 ['a', 'b', 'd']).count g)) = 2 := by decide
    rw [hm, ht]
    norm_num
  · norm_num

/-- C1 (amended): for each aligned pair, the q-gram score's numerator is the
sum over the shared vocabulary of `min(countA[g], countB[g])`, but the
denominator is `max(totalA, totalB)` — the larger of the two strings' total
n-gram counts (`np.maximum(u.sum(axis=1), v.sum(axis=1))`), not the multiset
union size `sum(max(countA[g], countB[g]))`; a zero denominator yields the
missing marker.  With bigrams and no word boundary, for `a="abc"`, `b="abd"`
the result is `1/2`. -/
theorem claim_C1 (analyzer : List Char → List (List Char))
    (s1 s2 : List (Option (List Char)))
    (h : s1.length = s2.length) (h0 : s1.length ≠ 0)
    (hV : vocabOf analyzer
      ((s1.map (fun o => o.getD [])) ++ (s2.map (fun o => o.getD []))) ≠ ∅) :
    qgram_similarity analyzer s1 s2 =
      .ok (((s1.map (fun o => o.getD [])).zip (s2.map (fun o => o.getD []))).map
        (fun t =>
          let V := vocabOf analyzer
            ((s1.map (fun o => o.getD [])) ++ (s2.map (fun o => o.getD [])))
          if max (∑ g ∈ V, (analyzer t.1).count g) (∑ g ∈ V, (analyzer t.2).count g) = 0
          then none
          else some
            (((∑ g ∈ V, min ((analyzer t.1).count g) ((analyzer t.2).count g) : ℕ) : ℚ) /
             ((max (∑ g ∈ V, (analyzer t.1).count g)
                (∑ g ∈ V, (analyzer t.2).count g) : ℕ) : ℚ)))) ∧
    qgram_similarity (charAnalyzer 2 2) [some "abc".data] [some "abd".data] =
      .ok [some (1 / 2 : ℚ)] := by
  constructor
  · simp only [qgram_similarity, qgramScore, h, h0, if_neg hV]
    norm_num
    exact fun hh => Or.inr hh
  · simp only [qgram_similarity]
    norm_num
    rw [if_neg (by decide)]
    simp only [qgramScore]
    rw [if_neg (by decide)]
    have hm : (∑ g ∈ vocabOf (charAnalyzer 2 2) [['a', 'b', 'c'], ['a', 'b', 'd']],
        min ((charAnalyzer 2 2 ['a', 'b', 'c']).count g)
          ((charAnalyzer 2 2 ['a', 'b', 'd']).count g)) = 1 := by decide
    have ht : (max (∑ g ∈ vocabOf (charAnalyzer 2 2) [['a', 'b', 'c'], ['a', 'b', 'd']],
        (charAnalyzer 2 2 ['a', 'b', 'c']).count g)
        (∑ g ∈ vocabOf (charAnalyzer 2 2) [['a', 'b', 'c'], ['a', 'b', 'd']],
        (charAnalyzer 2 2 ['a', 'b', 'd']).count g)) = 2 := by decide
    rw [hm, ht]
    norm_num

theorem claim_C1_witness :
    qgram_similarity (charAnalyzer 2 2) [some "abc".data] [some "abd".data] =
      .ok [some (1 / 2 : ℚ)] :=
  (claim_C1 (charAnalyzer 2 2) [some "abc".data] [some "abd".data]
    rfl (by decide) (by decide)).2

/-- C7: `lcs_apply` runs the greedy extraction loop on both orderings `(a,b)`
and `(b,a)`, normalizes each accumulated total independently (against the
original pair's lengths) and returns the arithmetic mean of the two normalized
values; for `a="ABCDE"`, `b="ABCXE"` with dice normalization and `minLen=2`
both orderings extract "ABC" (length 3) and stop, giving score
`2*3/(5+5) = 3/5 = 0.6`. -/
theorem claim_C7 (norm : String) (minLen : ℕ) (a b : List Char) (n1 n2 : ℚ)
    (h1 : normalize_lcs norm a.length b.length
      (lcs_loop minLen (a.length + b.length + 1) (some a, some b) 0) = .ok n1)
    (h2 : normalize_lcs norm a.length b.length
      (lcs_loop minLen (a.length + b.length + 1) (some b, some a) 0) = .ok n2) :
    lcs_apply norm minLen (some a) (some b) = .ok (some ((n1 + n2) / 2)) ∧
    longest_common_substring_similarity "dice" 2
      [some "ABCDE".data] [some "ABCXE".data] = .ok [some (3 / 5 : ℚ)] := by
  constructor
  · simp only [lcs_apply, h1, h2]
  · have hp : lcs_apply "dice" 2 (some "ABCDE".data) (some "ABCXE".data) =
        .ok (some (3 / 5 : ℚ)) := by
      have hacc1 : lcs_loop 2 11 (some "ABCDE".data, some "ABCXE".data) 0 = 3 := by decide
      have hacc2 : lcs_loop 2 11 (some "ABCXE".data, some "ABCDE".data) 0 = 3 := by decide
      simp only [lcs_apply]
      norm_num +decide [hacc1, hacc2, normalize_lcs]
    simp [longest_common_substring_similarity, exSeq, hp]

theorem claim_C7_witness :
    lcs_apply "dice" 2 (some "ABCDE".data) (some "ABCXE".data) =
      .ok (some (((3 / 5 : ℚ) + 3 / 5) / 2)) ∧
    longest_common_substring_similarity "dice" 2
      [some "ABCDE".data] [some "ABCXE".data] = .ok [some (3 / 5 : ℚ)] := by
  have hacc1 : lcs_loop 2 11 (some "ABCDE".data, some "ABCXE".data) 0 = 3 := by decide
  have hacc2 : lcs_loop 2 11 (some "ABCXE".data, some "ABCDE".data) 0 = 3 := by decide
  exact claim_C7 "dice" 2 "ABCDE".data "ABCXE".data (3 / 5) (3 / 5)
    (by norm_num +decide [normalize_lcs, hacc1])
    (by norm_num +decide [normalize_lcs, hacc2])

theorem nextCell_score_eq (p : SWParams) (c1 c2 : Char) (dC px py : Cell) :
    (nextCell p c1 c2 dC px py).score =
      max 0 (max (dC.score + (if c1 = c2 then p.matchScore else p.mismatchScore))
        (max (px.score + (if Tag.L ∈ px.trace then p.gapContinue else p.gapStart))
             (py.score + (if Tag.A ∈ py.trace then p.gapContinue else p.gapStart)))) := by
  simp only [nextCell]
  set d := dC.score + (if c1 = c2 then p.matchScore else p.mismatchScore) with hd
  set gl := px.score + (if Tag.L ∈ px.trace then p.gapContinue else p.gapStart) with hgl
  set ga := py.score + (if Tag.A ∈ py.trace then p.gapContinue else p.gapStart) with hga
  by_cases hs : max d (max gl ga) ≤ 0
  · rw [if_pos hs]
    show (0 : ℚ) = max 0 (max d (max gl ga))
    exact (max_eq_left hs).symm
  · rw [if_neg hs]
    show max d (max gl ga) = max 0 (max d (max gl ga))
    exact (max_eq_right (le_of_lt (not_le.mp hs))).symm

theorem nextCell_trace_mem (p : SWParams) (c1 c2 : Char) (dC px py : Cell)
    (h : 0 < (nextCell p c1 c2 dC px py).score) :
    ((Tag.D ∈ (nextCell p c1 c2 dC px py).trace ↔
      (nextCell p c1 c2 dC px py).score =
        dC.score + (if c1 = c2 then p.matchScore else p.mismatchScore)) ∧
     (Tag.A ∈ (nextCell p c1 c2 dC px py).trace ↔
      (nextCell p c1 c2 dC px py).score =
        py.score + (if Tag.A ∈ py.trace then p.gapContinue else p.gapStart)) ∧
     (Tag.L ∈ (nextCell p c1 c2 dC px py).trace ↔
      (nextCell p c1 c2 dC px py).score =
        px.score + (if Tag.L ∈ px.trace then p.gapContinue else p.gapStart))) := by
  simp only [nextCell] at h ⊢
  set d := dC.score + (if c1 = c2 then p.matchScore else p.mismatchScore) with hd
  set gl := px.score + (if Tag.L ∈ px.trace then p.gapContinue else p.gapStart) with hgl
  set ga := py.score + (if Tag.A ∈ py.trace then p.gapContinue else p.gapStart) with hga
  by_cases hs : max d (max gl ga) ≤ 0
  · rw [if_pos hs] at h
    exact absurd h (by simp [zeroCell])
  · rw [if_neg hs] at h ⊢
    simp only [List.mem_append]
    refine ⟨?_, ?_, ?_⟩ <;> split_ifs <;> simp_all <;> linarith

/-- C6: each interior DP cell of `smith_waterman_similarity` has score
`max(0, diagonal, gapFromLeft, gapFromAbove)`, where the gap candidates charge
`gap_continue` exactly when the predecessor cell's trace set contains the same
gap direction (else `gap_start`); when the score is positive the cell's trace
records exactly the candidates that tie for the maximum; and the raw result
`compute_score` is the maximum value ever written to any cell (`0` if nothing
positive was written). -/
theorem claim_C6 (p : SWParams) (s1 s2 : List Char) (x y : ℕ)
    (hx : x < s1.length) (hy : y < s2.length) :
    ((swM p s1 s2 (x + 1) (y + 1)).score =
      max 0 (max
        ((swM p s1 s2 x y).score +
          (if s1.getD x ' ' = s2.getD y ' ' then p.matchScore else p.mismatchScore))
        (max
          ((swM p s1 s2 x (y + 1)).score +
            (if Tag.L ∈ (swM p s1 s2 x (y + 1)).trace then p.gapContinue else p.gapStart))
          ((swM p s1 s2 (x + 1) y).score +
            (if Tag.A ∈ (swM p s1 s2 (x + 1) y).trace then p.gapContinue else p.gapStart))))) ∧
    (0 < (swM p s1 s2 (x + 1) (y + 1)).score →
      ((Tag.D ∈ (swM p s1 s2 (x + 1) (y + 1)).trace ↔
        (swM p s1 s2 (x + 1) (y + 1)).score =
          (swM p s1 s2 x y).score +
            (if s1.getD x ' ' = s2.getD y ' ' then p.matchScore else p.mismatchScore)) ∧
       (Tag.A ∈ (swM p s1 s2 (x + 1) (y + 1)).trace ↔
        (swM p s1 s2 (x + 1) (y + 1)).score =
          (swM p s1 s2 (x + 1) y).score +
            (if Tag.A ∈ (swM p s1 s2 (x + 1) y).trace then p.gapContinue else p.gapStart)) ∧
       (Tag.L ∈ (swM p s1 s2 (x + 1) (y + 1)).trace ↔
        (swM p s1 s2 (x + 1) (y + 1)).score =
          (swM p s1 s2 x (y + 1)).score +
            (if Tag.L ∈ (swM p s1 s2 x (y + 1)).trace then p.gapContinue else p.gapStart)))) ∧
    ((swM p s1 s2 (x + 1) (y + 1)).score ≤ compute_score p s1 s2) ∧
    (compute_score p s1 s2 = 0 ∨
      ∃ i j, i < s1.length ∧ j < s2.length ∧
        (swM p s1 s2 (i + 1) (j + 1)).score = compute_score p s1 s2) := by
  refine ⟨?_, ?_, ?_, ?_⟩
  · rw [swM_succ_succ]
    exact nextCell_score_eq p _ _ _ _ _
  · rw [swM_succ_succ]
    exact fun h => nextCell_trace_mem p _ _ _ _ _ h
  · have hmem : (swM p s1 s2 (x + 1) (y + 1)).score ∈
        (List.range' 1 s1.length).flatMap (fun a =>
          (List.range' 1 s2.length).map (fun b => (swM p s1 s2 a b).score)) := by
      refine List.mem_flatMap.mpr ⟨x + 1, List.mem_range'_1.mpr ⟨by omega, by omega⟩, ?_⟩
      exact List.mem_map.mpr ⟨y + 1, List.mem_range'_1.mpr ⟨by omega, by omega⟩, rfl⟩
    simpa only [compute_score] using le_foldl_max_of_mem 0 hmem
  · rcases foldl_max_eq_init_or_mem
        ((List.range' 1 s1.length).flatMap (fun a =>
          (List.range' 1 s2.length).map (fun b => (swM p s1 s2 a b).score))) 0 with h0 | hmem
    · exact Or.inl h0
    · right
      rcases List.mem_flatMap.mp hmem with ⟨a, ha, hmem2⟩
      rcases List.mem_map.mp hmem2 with ⟨b, hb, heq⟩
      rcases List.mem_range'_1.mp ha with ⟨ha1, ha2⟩
      rcases List.mem_range'_1.mp hb with ⟨hb1, hb2⟩
      refine ⟨a - 1, b - 1, by omega, by omega, ?_⟩
      have hae : a - 1 + 1 = a := by omega
      have hbe : b - 1 + 1 = b := by omega
      rw [hae, hbe]
      exact heq

theorem claim_C6_witness :
    ((swM ⟨5, -5, -5, -1, "mean"⟩ "ab".data "ab".data 1 1).score =
      max 0 (max
        ((swM ⟨5, -5, -5, -1, "mean"⟩ "ab".data "ab".data 0 0).score +
          (if "ab".data.getD 0 ' ' = "ab".data.getD 0 ' ' then (5 : ℚ) else -5))
        (max
          ((swM ⟨5, -5, -5, -1, "mean"⟩ "ab".data "ab".data 0 1).score +
            (if Tag.L ∈ (swM ⟨5, -5, -5, -1, "mean"⟩ "ab".data "ab".data 0 1).trace
             then (-1 : ℚ) else -5))
          ((swM ⟨5, -5, -5, -1, "mean"⟩ "ab".data "ab".data 1 0).score +
            (if Tag.A ∈ (swM ⟨5, -5, -5, -1, "mean"⟩ "ab".data "ab".data 1 0).trace
             then (-1 : ℚ) else -5))))) ∧
    ((swM ⟨5, -5, -5, -1, "mean"⟩ "ab".data "ab".data 1 1).score ≤
      compute_score ⟨5, -5, -5, -1, "mean"⟩ "ab".data "ab".data) := by
  have h := claim_C6 ⟨5, -5, -5, -1, "mean"⟩ "ab".data "ab".data 0 0
    (by decide) (by decide)
  exact ⟨h.1, h.2.2.1⟩

theorem outerAlign_swap (s1 s2 : List (Option (List Char))) :
    outerAlign s2 s1 = (outerAlign s1 s2).map Prod.swap := by
  simp only [outerAlign, List.map_map]
  rw [max_comm s2.length s1.length]
  rfl

theorem vocabOf_append_comm (analyzer : List Char → List (List Char))
    (d1 d2 : List (List Char)) :
    vocabOf analyzer (d1 ++ d2) = vocabOf analyzer (d2 ++ d1) := by
  simp only [vocabOf, List.flatMap_append, List.toFinset_append]
  exact Finset.union_comm _ _

theorem qgramScore_symm (analyzer : List Char → List (List Char))
    (V : Finset (List Char)) (a b : List Char) :
    qgramScore analyzer V a b = qgramScore analyzer V b a := by
  have h1 : (∑ g ∈ V, min ((analyzer a).count g) ((analyzer b).count g)) =
      ∑ g ∈ V, min ((analyzer b).count g) ((analyzer a).count g) :=
    Finset.sum_congr rfl (fun g _ => min_comm _ _)
  have h2 : max (∑ g ∈ V, (analyzer a).count g) (∑ g ∈ V, (analyzer b).count g) =
      max (∑ g ∈ V, (analyzer b).count g) (∑ g ∈ V, (analyzer a).count g) :=
    max_comm _ _
  simp only [qgramScore, h1, h2]

theorem cosineScore_symm (analyzer : List Char → List (List Char))
    (V : Finset (List Char)) (a b : List Char) :
    cosineScore analyzer V a b = cosineScore analyzer V b a := by
  have h1 : (∑ g ∈ V, ((analyzer b).count g : ℝ) * ((analyzer a).count g : ℝ)) =
      ∑ g ∈ V, ((analyzer a).count g : ℝ) * ((analyzer b).count g : ℝ) :=
    Finset.sum_congr rfl (fun g _ => mul_comm _ _)
  have h2 : Real.sqrt (∑ g ∈ V, ((analyzer a).count g : ℝ) ^ 2) *
        Real.sqrt (∑ g ∈ V, ((analyzer b).count g : ℝ) ^ 2) =
      Real.sqrt (∑ g ∈ V, ((analyzer b).count g : ℝ) ^ 2) *
        Real.sqrt (∑ g ∈ V, ((analyzer a).count g : ℝ) ^ 2) :=
    mul_comm _ _
  simp only [cosineScore, h1, h2]

theorem qgram_similarity_symm (analyzer : List Char → List (List Char))
    (s1 s2 : List (Option (List Char))) :
    qgram_similarity analyzer s1 s2 = qgram_similarity analyzer s2 s1 := by
  by_cases hlen : s1.length = s2.length
  · simp only [qgram_similarity, if_neg (not_not_intro hlen),
      if_neg (not_not_intro hlen.symm)]
    by_cases h0 : s1.length = 0
    · rw [if_pos h0, if_pos (hlen ▸ h0)]
    · rw [if_neg h0, if_neg (fun hc => h0 (hlen.symm ▸ hc))]
      rw [vocabOf_append_comm analyzer (s2.map (fun o => o.getD []))
        (s1.map (fun o => o.getD []))]
      by_cases hV : vocabOf analyzer
          ((s1.map (fun o => o.getD [])) ++ (s2.map (fun o => o.getD []))) = ∅
      · rw [if_pos hV, if_pos hV]
      · rw [if_neg hV, if_neg hV]
        rw [← List.zip_swap (s1.map (fun o => o.getD [])), List.map_map]
        refine congrArg Except.ok (List.map_congr_left ?_)
        intro t _
        exact (qgramScore_symm analyzer _ t.1 t.2)
  · have hlen' : s2.length ≠ s1.length := fun hc => hlen hc.symm
    simp only [qgram_similarity, if_pos hlen, if_pos hlen']

theorem cosine_similarity_symm (analyzer : List Char → List (List Char))
    (s1 s2 : List (Option (List Char))) :
    cosine_similarity analyzer s1 s2 = cosine_similarity analyzer s2 s1 := by
  by_cases hlen : s1.length = s2.length
  · simp only [cosine_similarity, if_neg (not_not_intro hlen),
      if_neg (not_not_intro hlen.symm)]
    by_cases h0 : s1.length = 0
    · rw [if_pos h0, if_pos (hlen ▸ h0)]
    · rw [if_neg h0, if_neg (fun hc => h0 (hlen.symm ▸ hc))]
      rw [vocabOf_append_comm analyzer (s2.map (fun o => o.getD []))
        (s1.map (fun o => o.getD []))]
      by_cases hV : vocabOf analyzer
          ((s1.map (fun o => o.getD [])) ++ (s2.map (fun o => o.getD []))) = ∅
      · rw [if_pos hV, if_pos hV]
      · rw [if_neg hV, if_neg hV]
        rw [← List.zip_swap (s1.map (fun o => o.getD [])), List.map_map]
        refine congrArg Except.ok (List.map_congr_left ?_)
        intro t _
        exact (cosineScore_symm analyzer _ t.1 t.2)
  · have hlen' : s2.length ≠ s1.length := fun hc => hlen hc.symm
    simp only [cosine_similarity, if_pos hlen, if_pos hlen']

theorem jaro_apply_symm {prim : List Char → List Char → Except Err ℚ}
    (hs : ∀ a b, prim a b = prim b a) (x0 x1 : Option (List Char)) :
    jaro_apply prim x0 x1 = jaro_apply prim x1 x0 := by
  cases x0 <;> cases x1 <;> simp [jaro_apply]
  rw [hs]

theorem jaro_winkler_apply_symm {prim : List Char → List Char → Except Err ℚ}
    (hs : ∀ a b, prim a b = prim b a) (x0 x1 : Option (List Char)) :
    jaro_winkler_apply prim x0 x1 = jaro_winkler_apply prim x1 x0 := by
  cases x0 <;> cases x1 <;> simp [jaro_winkler_apply]
  rw [hs]

theorem levenshtein_apply_symm {dist : List Char → List Char → Except Err ℕ}
    (hs : ∀ a b, dist a b = dist b a) (x0 x1 : Option (List Char)) :
    levenshtein_apply dist x0 x1 = levenshtein_apply dist x1 x0 := by
  cases x0 with
  | none => cases x1 <;> simp [levenshtein_apply]
  | some a =>
    cases x1 with
    | none => simp [levenshtein_apply]
    | some b =>
      simp only [levenshtein_apply, hs a b, max_comm a.length b.length]

theorem jaro_similarity_symm {prim : List Char → List Char → Except Err ℚ}
    (hs : ∀ a b, prim a b = prim b a) (s1 s2 : List (Option (List Char))) :
    jaro_similarity prim s1 s2 = jaro_similarity prim s2 s1 := by
  simp only [jaro_similarity, outerAlign_swap s1 s2, List.map_map]
  exact exSeq_map_congr (fun t _ => jaro_apply_symm hs t.1 t.2)

theorem jarowinkler_similarity_symm {prim : List Char → List Char → Except Err ℚ}
    (hs : ∀ a b, prim a b = prim b a) (s1 s2 : List (Option (List Char))) :
    jarowinkler_similarity prim s1 s2 = jarowinkler_similarity prim s2 s1 := by
  simp only [jarowinkler_similarity, outerAlign_swap s1 s2, List.map_map]
  exact exSeq_map_congr (fun t _ => jaro_winkler_apply_symm hs t.1 t.2)

theorem levenshtein_similarity_symm {dist : List Char → List Char → Except Err ℕ}
    (hs : ∀ a b, dist a b = dist b a) (s1 s2 : List (Option (List Char))) :
    levenshtein_similarity dist s1 s2 = levenshtein_similarity dist s2 s1 := by
  simp only [levenshtein_similarity, outerAlign_swap s1 s2, List.map_map]
  exact exSeq_map_congr (fun t _ => levenshtein_apply_symm hs t.1 t.2)

/-- C9: `jaro_similarity` and `levenshtein_similarity` are symmetric in their
two input collections whenever the collaborator primitive is symmetric (the
wrapper code adds nothing order-dependent: missing handling and the
`max(len, len)` normalization are symmetric); `qgram_similarity` and
`cosine_similarity` are unconditionally symmetric, the shared vocabulary being
built identically regardless of which collection comes first. -/
theorem claim_C9 :
    (∀ prim : List Char → List Char → Except Err ℚ, (∀ a b, prim a b = prim b a) →
      ∀ s1 s2, jaro_similarity prim s1 s2 = jaro_similarity prim s2 s1) ∧
    (∀ dist : List Char → List Char → Except Err ℕ, (∀ a b, dist a b = dist b a) →
      ∀ s1 s2, levenshtein_similarity dist s1 s2 = levenshtein_similarity dist s2 s1) ∧
    (∀ analyzer s1 s2,
      qgram_similarity analyzer s1 s2 = qgram_similarity analyzer s2 s1) ∧
    (∀ analyzer s1 s2,
      cosine_similarity analyzer s1 s2 = cosine_similarity analyzer s2 s1) ∧
    (∀ (analyzer : List Char → List (List Char)) (d1 d2 : List (List Char)),
      vocabOf analyzer (d1 ++ d2) = vocabOf analyzer (d2 ++ d1)) :=
  ⟨fun _ hs s1 s2 => jaro_similarity_symm hs s1 s2,
   fun _ hs s1 s2 => levenshtein_similarity_symm hs s1 s2,
   fun analyzer s1 s2 => qgram_similarity_symm analyzer s1 s2,
   fun analyzer s1 s2 => cosine_similarity_symm analyzer s1 s2,
   fun analyzer d1 d2 => vocabOf_append_comm analyzer d1 d2⟩

theorem claim_C9_witness :
    jaro_similarity (fun _ _ => .ok 0) [some "ab".data] [some "ba".data] =
      jaro_similarity (fun _ _ => .ok 0) [some "ba".data] [some "ab".data] ∧
    levenshtein_similarity (fun _ _ => .ok 1) [some "ab".data] [some "ba".data] =
      levenshtein_similarity (fun _ _ => .ok 1) [some "ba".data] [some "ab".data] ∧
    qgram_similarity (charAnalyzer 2 2) [some "abc".data] [some "abd".data] =
      qgram_similarity (charAnalyzer 2 2) [some "abd".data] [some "abc".data] :=
  ⟨claim_C9.1 (fun _ _ => .ok 0) (fun _ _ => rfl) _ _,
   claim_C9.2.1 (fun _ _ => .ok 1) (fun _ _ => rfl) _ _,
   claim_C9.2.2.1 (charAnalyzer 2 2) _ _⟩

theorem swM_zero_left (p : SWParams) (s1 s2 : List Char) (y : ℕ) :
    swM p s1 s2 0 y = zeroCell := rfl

theorem swM_zero_right (p : SWParams) (s1 s2 : List Char) (x : ℕ) :
    swM p s1 s2 (x + 1) 0 = zeroCell := rfl

theorem nextCell_score_nonneg (p : SWParams) (c1 c2 : Char) (dC px py : Cell) :
    0 ≤ (nextCell p c1 c2 dC px py).score := by
  rw [nextCell_score_eq]
  exact le_max_left 0 _

theorem swM_score_nonneg (p : SWParams) (s1 s2 : List Char) (x y : ℕ) :
    0 ≤ (swM p s1 s2 x y).score := by
  cases x with
  | zero => norm_num [swM_zero_left, zeroCell]
  | succ x =>
    cases y with
    | zero => norm_num [swM_zero_right, zeroCell]
    | succ y =>
      rw [swM_succ_succ]
      exact nextCell_score_nonneg p _ _ _ _ _

theorem swM_score_le (p : SWParams) (s1 s2 : List Char)
    (hm : 0 ≤ p.matchScore) (hmm : p.mismatchScore ≤ p.matchScore)
    (hgs : p.gapStart ≤ 0) (hgc : p.gapContinue ≤ 0) :
    ∀ x y, (swM p s1 s2 x y).score ≤ p.matchScore * ((min x y : ℕ) : ℚ) := by
  intro x
  induction x with
  | zero =>
    intro y
    norm_num [swM_zero_left, zeroCell]
  | succ x ihx =>
    intro y
    induction y with
    | zero => norm_num [swM_zero_right, zeroCell]
    | succ y ihy =>
      rw [swM_succ_succ, nextCell_score_eq]
      have hmin : ((min (x + 1) (y + 1) : ℕ) : ℚ) = ((min x y : ℕ) : ℚ) + 1 := by
        rw [Nat.succ_min_succ]
        push_cast
        ring
      have hB : (0 : ℚ) ≤ p.matchScore * ((min (x + 1) (y + 1) : ℕ) : ℚ) :=
        mul_nonneg hm (by positivity)
      have hd : (swM p s1 s2 x y).score +
          (if s1.getD x ' ' = s2.getD y ' ' then p.matchScore else p.mismatchScore) ≤
          p.matchScore * ((min (x + 1) (y + 1) : ℕ) : ℚ) := by
        have h1 := ihx y
        have h2 : (if s1.getD x ' ' = s2.getD y ' ' then p.matchScore
            else p.mismatchScore) ≤ p.matchScore := by
          split_ifs
          · exact le_refl _
          · exact hmm
        rw [hmin]
        calc (swM p s1 s2 x y).score +
            (if s1.getD x ' ' = s2.getD y ' ' then p.matchScore else p.mismatchScore) ≤
            p.matchScore * ((min x y : ℕ) : ℚ) + p.matchScore := add_le_add h1 h2
          _ = p.matchScore * (((min x y : ℕ) : ℚ) + 1) := by ring
      have hcast : ∀ m n : ℕ, m ≤ n →
          p.matchScore * ((m : ℕ) : ℚ) ≤ p.matchScore * ((n : ℕ) : ℚ) := by
        intro m n hmn
        exact mul_le_mul_of_nonneg_left (by exact_mod_cast hmn) hm
      have hgl : (swM p s1 s2 x (y + 1)).score +
          (if Tag.L ∈ (swM p s1 s2 x (y + 1)).trace then p.gapContinue else p.gapStart) ≤
          p.matchScore * ((min (x + 1) (y + 1) : ℕ) : ℚ) := by
        have h1 := ihx (y + 1)
        have h2 : (if Tag.L ∈ (swM p s1 s2 x (y + 1)).trace then p.gapContinue
            else p.gapStart) ≤ 0 := by
          split_ifs
          · exact hgc
          · exact hgs
        have h3 : min x (y + 1) ≤ min (x + 1) (y + 1) :=
          min_le_min (Nat.le_succ x) (le_refl _)
        linarith [hcast _ _ h3]
      have hga : (swM p s1 s2 (x + 1) y).score +
          (if Tag.A ∈ (swM p s1 s2 (x + 1) y).trace then p.gapContinue else p.gapStart) ≤
          p.matchScore * ((min (x + 1) (y + 1) : ℕ) : ℚ) := by
        have h1 := ihy
        have h2 : (if Tag.A ∈ (swM p s1 s2 (x + 1) y).trace then p.gapContinue
            else p.gapStart) ≤ 0 := by
          split_ifs
          · exact hgc
          · exact hgs
        have h3 : min (x + 1) y ≤ min (x + 1) (y + 1) :=
          min_le_min (le_refl _) (Nat.le_succ y)
        linarith [hcast _ _ h3]
      exact max_le hB (max_le hd (max_le hgl hga))

theorem compute_score_nonneg (p : SWParams) (s1 s2 : List Char) :
    0 ≤ compute_score p s1 s2 :=
  foldl_max_init_le _ 0

theorem compute_score_le (p : SWParams) (s1 s2 : List Char)
    (hm : 0 ≤ p.matchScore) (hmm : p.mismatchScore ≤ p.matchScore)
    (hgs : p.gapStart ≤ 0) (hgc : p.gapContinue ≤ 0) :
    compute_score p s1 s2 ≤ p.matchScore * ((min s1.length s2.length : ℕ) : ℚ) := by
  have hB : (0 : ℚ) ≤ p.matchScore * ((min s1.length s2.length : ℕ) : ℚ) :=
    mul_nonneg hm (by positivity)
  refine foldl_max_le_of _ 0 _ hB ?_
  intro a ha
  rcases List.mem_flatMap.mp ha with ⟨i, hi, hmem⟩
  rcases List.mem_map.mp hmem with ⟨j, hj, heq⟩
  rcases List.mem_range'_1.mp hi with ⟨_, hi2⟩
  rcases List.mem_range'_1.mp hj with ⟨_, hj2⟩
  subst heq
  calc (swM p s1 s2 i j).score ≤ p.matchScore * ((min i j : ℕ) : ℚ) :=
      swM_score_le p s1 s2 hm hmm hgs hgc i j
    _ ≤ p.matchScore * ((min s1.length s2.length : ℕ) : ℚ) := by
      refine mul_le_mul_of_nonneg_left ?_ hm
      have : min i j ≤ min s1.length s2.length := min_le_min (by omega) (by omega)
      exact_mod_cast this

theorem normalize_bounds (p : SWParams) (l1 l2 : ℕ) (H : ℚ)
    (hmatch : 0 < p.matchScore) (hl1 : 0 < l1) (hl2 : 0 < l2)
    (hH0 : 0 ≤ H) (hH : H ≤ p.matchScore * ((min l1 l2 : ℕ) : ℚ))
    (hnorm : p.norm = "min" ∨ p.norm = "max" ∨ p.norm = "mean") :
    ∃ q, SW.normalize p l1 l2 H = .ok (some q) ∧ 0 ≤ q ∧ q ≤ 1 := by
  have hminpos : (0 : ℚ) < ((min l1 l2 : ℕ) : ℚ) := by
    have h : 0 < min l1 l2 := lt_min hl1 hl2
    exact_mod_cast h
  have hmaxpos : (0 : ℚ) < ((max l1 l2 : ℕ) : ℚ) := by
    have h : 0 < max l1 l2 := lt_of_lt_of_le hl1 (le_max_left _ _)
    exact_mod_cast h
  have hsumpos : (0 : ℚ) < (l1 : ℚ) + (l2 : ℚ) := by
    have h : (0 : ℕ) < l1 + l2 := by omega
    exact_mod_cast h
  rcases hnorm with hn | hn | hn
  · refine ⟨H / (((min l1 l2 : ℕ) : ℚ) * p.matchScore), ?_, ?_, ?_⟩
    · simp only [SW.normalize]
      rw [if_pos hn, if_neg (ne_of_gt (mul_pos hminpos hmatch))]
    · exact div_nonneg hH0 (le_of_lt (mul_pos hminpos hmatch))
    · rw [div_le_one (mul_pos hminpos hmatch)]
      linarith [hH]
  · have hn' : p.norm ≠ "min" := by rw [hn]; decide
    refine ⟨H / (((max l1 l2 : ℕ) : ℚ) * p.matchScore), ?_, ?_, ?_⟩
    · simp only [SW.normalize]
      rw [if_neg hn', if_pos hn, if_neg (ne_of_gt (mul_pos hmaxpos hmatch))]
    · exact div_nonneg hH0 (le_of_lt (mul_pos hmaxpos hmatch))
    · rw [div_le_one (mul_pos hmaxpos hmatch)]
      have hle : ((min l1 l2 : ℕ) : ℚ) ≤ ((max l1 l2 : ℕ) : ℚ) := by
        exact_mod_cast min_le_max (a := l1) (b := l2)
      nlinarith [hH, hmatch.le]
  · have hn1 : p.norm ≠ "min" := by rw [hn]; decide
    have hn2 : p.norm ≠ "max" := by rw [hn]; decide
    refine ⟨2 * H / (((l1 : ℚ) + (l2 : ℚ)) * p.matchScore), ?_, ?_, ?_⟩
    · simp only [SW.normalize]
      rw [if_neg hn1, if_neg hn2, if_pos hn, if_neg (ne_of_gt (mul_pos hsumpos hmatch))]
    · exact div_nonneg (by linarith) (le_of_lt (mul_pos hsumpos hmatch))
    · rw [div_le_one (mul_pos hsumpos hmatch)]
      have h2min : 2 * ((min l1 l2 : ℕ) : ℚ) ≤ (l1 : ℚ) + (l2 : ℚ) := by
        have hN : 2 * min l1 l2 ≤ l1 + l2 := by omega
        exact_mod_cast hN
      nlinarith [hH, hmatch.le]

theorem sw_apply_bounds (p : SWParams) (a b : List Char)
    (hmatch : 0 < p.matchScore) (hmm : p.mismatchScore ≤ p.matchScore)
    (hgs : p.gapStart ≤ 0) (hgc : p.gapContinue ≤ 0)
    (ha : 0 < a.length) (hb : 0 < b.length)
    (hnorm : p.norm = "min" ∨ p.norm = "max" ∨ p.norm = "mean") :
    ∃ q, sw_apply p (some a) (some b) = .ok (some q) ∧ 0 ≤ q ∧ q ≤ 1 := by
  have hne : ¬ (a.length = 0 ∨ b.length = 0) := by omega
  rcases normalize_bounds p a.length b.length (compute_score p a b) hmatch ha hb
      (compute_score_nonneg p a b)
      (compute_score_le p a b hmatch.le hmm hgs hgc) hnorm with ⟨q, hq, hq0, hq1⟩
  refine ⟨q, ?_, hq0, hq1⟩
  simp only [sw_apply, if_neg hne]
  exact hq

theorem lcsM_le (s1 s2 : List Char) : ∀ x y, lcsM s1 s2 x y ≤ min x y := by
  intro x
  induction x with
  | zero => intro y; simp [lcsM]
  | succ x ihx =>
    intro y
    cases y with
    | zero => simp [lcsM]
    | succ y =>
      simp only [lcsM]
      split
      · have := ihx y
        omega
      · omega

/-- The fold step of `lcsScan`, named for proofs. -/
def lcsStep (s1 s2 : List Char) (acc : ℕ × ℕ × ℕ) (xy : ℕ × ℕ) : ℕ × ℕ × ℕ :=
  let v := lcsM s1 s2 xy.1 xy.2
  if acc.1 < v then (v, xy.1, xy.2) else acc

theorem lcsScan_eq_foldl (s1 s2 : List Char) :
    lcsScan s1 s2 = ((List.range' 1 s1.length).flatMap (fun x =>
      (List.range' 1 s2.length).map (fun y => (x, y)))).foldl (lcsStep s1 s2) (0, 0, 0) :=
  rfl

theorem lcsScan_spec (s1 s2 : List Char) :
    (lcsScan s1 s2).1 ≤ (lcsScan s1 s2).2.1 ∧ (lcsScan s1 s2).2.1 ≤ s1.length ∧
    (lcsScan s1 s2).1 ≤ (lcsScan s1 s2).2.2 ∧ (lcsScan s1 s2).2.2 ≤ s2.length := by
  have key : ∀ (l : List (ℕ × ℕ)), (∀ t ∈ l, t.1 ≤ s1.length ∧ t.2 ≤ s2.length) →
      ∀ r : ℕ × ℕ × ℕ, r.1 ≤ r.2.1 → r.2.1 ≤ s1.length → r.1 ≤ r.2.2 → r.2.2 ≤ s2.length →
      (l.foldl (lcsStep s1 s2) r).1 ≤ (l.foldl (lcsStep s1 s2) r).2.1 ∧
      (l.foldl (lcsStep s1 s2) r).2.1 ≤ s1.length ∧
      (l.foldl (lcsStep s1 s2) r).1 ≤ (l.foldl (lcsStep s1 s2) r).2.2 ∧
      (l.foldl (lcsStep s1 s2) r).2.2 ≤ s2.length := by
    intro l
    induction l with
    | nil => intro _ r h1 h2 h3 h4; exact ⟨h1, h2, h3, h4⟩
    | cons t l ih =>
      intro hl r h1 h2 h3 h4
      simp only [List.foldl_cons]
      rcases hl t (List.mem_cons_self t l) with ⟨ht1, ht2⟩
      have hl' : ∀ u ∈ l, u.1 ≤ s1.length ∧ u.2 ≤ s2.length :=
        fun u hu => hl u (List.mem_cons_of_mem _ hu)
      have hv := lcsM_le s1 s2 t.1 t.2
      by_cases hc : r.1 < lcsM s1 s2 t.1 t.2
      · have hstep : lcsStep s1 s2 r t = (lcsM s1 s2 t.1 t.2, t.1, t.2) := by
          simp [lcsStep, hc]
        rw [hstep]
        exact ih hl' _ (by simp; omega) ht1 (by simp; omega) ht2
      · have hstep : lcsStep s1 s2 r t = r := by
          simp [lcsStep, hc]
        rw [hstep]
        exact ih hl' r h1 h2 h3 h4
  rw [lcsScan_eq_foldl]
  refine key _ ?_ (0, 0, 0) (le_refl 0) (Nat.zero_le _) (le_refl 0) (Nat.zero_le _)
  intro t ht
  rcases List.mem_flatMap.mp ht with ⟨i, hi, hmem⟩
  rcases List.mem_map.mp hmem with ⟨j, hj, heq⟩
  rcases List.mem_range'_1.mp hi with ⟨_, hi2⟩
  rcases List.mem_range'_1.mp hj with ⟨_, hj2⟩
  subst heq
  exact ⟨by omega, by omega⟩

theorem lcs_iteration_spec (minLen : ℕ) (a b : List Char)
    (h : ¬ min a.length b.length < minLen) :
    ∃ a' b' g, lcs_iteration minLen (some a, some b) = ((some a', some b'), g) ∧
      a'.length = a.length - g ∧ b'.length = b.length - g ∧
      g ≤ min a.length b.length := by
  rcases lcsScan_spec a b with ⟨h1, h2, h3, h4⟩
  refine ⟨a.take ((lcsScan a b).2.1 - (lcsScan a b).1) ++ a.drop (lcsScan a b).2.1,
    b.take ((lcsScan a b).2.2 - (lcsScan a b).1) ++ b.drop (lcsScan a b).2.2,
    (lcsScan a b).1, ?_, ?_, ?_, ?_⟩
  · simp [lcs_iteration, h]
  · simp only [List.length_append, List.length_take, List.length_drop]
    omega
  · simp only [List.length_append, List.length_take, List.length_drop]
    omega
  · omega

theorem lcs_loop_missing (minLen : ℕ) :
    ∀ (fuel : ℕ) (p : Option (List Char) × Option (List Char)) (acc : ℕ),
      (p.1 = none ∨ p.2 = none) → lcs_loop minLen fuel p acc = acc := by
  intro fuel
  induction fuel with
  | zero => intro p acc _; rfl
  | succ fuel ih =>
    intro p acc hp
    have hiter : lcs_iteration minLen p = ((none, none), 0) := by
      rcases hp with hp | hp
      · rcases p with ⟨p1, p2⟩
        simp only at hp
        subst hp
        rfl
      · rcases p with ⟨p1, p2⟩
        simp only at hp
        subst hp
        cases p1 <;> rfl
    simp only [lcs_loop, hiter]
    by_cases h0 : 0 < minLen
    · rw [if_pos h0]
    · rw [if_neg h0]
      exact ih (none, none) (acc + 0) (Or.inl rfl)

theorem lcs_loop_le (minLen : ℕ) :
    ∀ (fuel : ℕ) (a b : List Char) (acc : ℕ),
      lcs_loop minLen fuel (some a, some b) acc ≤ acc + min a.length b.length := by
  intro fuel
  induction fuel with
  | zero => intro a b acc; simp [lcs_loop]
  | succ fuel ih =>
    intro a b acc
    by_cases hshort : min a.length b.length < minLen
    · have h0 : 0 < minLen := lt_of_le_of_lt (Nat.zero_le _) hshort
      simp only [lcs_loop, lcs_iteration, if_pos hshort]
      rw [if_pos h0]
      omega
    · rcases lcs_iteration_spec minLen a b hshort with ⟨a', b', g, hiter, hla, hlb, hg⟩
      simp only [lcs_loop, hiter]
      by_cases hbreak : g < minLen
      · rw [if_pos hbreak]
        omega
      · rw [if_neg hbreak]
        have := ih a' b' (acc + g)
        rw [hla, hlb] at this
        omega

theorem normalize_lcs_bounds (norm : String) (la lb v : ℕ) (n : ℚ)
    (hv : v ≤ min la lb) (h : normalize_lcs norm la lb v = .ok n) :
    0 ≤ n ∧ n ≤ 1 := by
  have habs : |(v : ℚ)| = (v : ℚ) := abs_of_nonneg (by positivity)
  have h2v : 2 * (v : ℚ) ≤ (la : ℚ) + (lb : ℚ) := by
    have hN : 2 * v ≤ la + lb := by omega
    exact_mod_cast hN
  have hv0 : (0 : ℚ) ≤ (v : ℚ) := by positivity
  by_cases hov : norm = "overlap"
  · simp only [normalize_lcs, if_pos hov] at h
    by_cases hz : min la lb = 0
    · rw [if_pos hz] at h
      cases h
    · rw [if_neg hz] at h
      cases h
      have hpos : (0 : ℚ) < ((min la lb : ℕ) : ℚ) := by
        have hp : 0 < min la lb := Nat.pos_of_ne_zero hz
        exact_mod_cast hp
      refine ⟨by positivity, ?_⟩
      rw [div_le_one hpos]
      exact_mod_cast hv
  · by_cases hj : norm = "jaccard"
    · simp only [normalize_lcs, if_neg hov, if_pos hj] at h
      by_cases hz : (la : ℚ) + (lb : ℚ) - |(v : ℚ)| = 0
      · rw [if_pos hz] at h
        cases h
      · rw [if_neg hz] at h
        cases h
        have hD : (0 : ℚ) < (la : ℚ) + (lb : ℚ) - |(v : ℚ)| := by
          rw [habs] at hz ⊢
          exact lt_of_le_of_ne (by linarith) (Ne.symm hz)
        refine ⟨div_nonneg hv0 hD.le, ?_⟩
        rw [div_le_one hD, habs]
        linarith
    · have hform : normalize_lcs norm la lb v =
          (if la + lb = 0 then .error .external
           else .ok ((v : ℚ) * 2 / ((la : ℚ) + (lb : ℚ)))) := by
        by_cases hd : norm = "dice"
        · simp only [normalize_lcs, if_neg hov, if_neg hj, if_pos hd]
        · simp only [normalize_lcs, if_neg hov, if_neg hj, if_neg hd]
      rw [hform] at h
      by_cases hz : la + lb = 0
      · rw [if_pos hz] at h
        cases h
      · rw [if_neg hz] at h
        cases h
        have hD : (0 : ℚ) < (la : ℚ) + (lb : ℚ) := by
          have hp : 0 < la + lb := Nat.pos_of_ne_zero hz
          exact_mod_cast hp
        refine ⟨div_nonneg (by positivity) hD.le, ?_⟩
        rw [div_le_one hD]
        linarith

theorem lcs_apply_bounds (norm : String) (minLen : ℕ) (a b : List Char) (q : ℚ)
    (h : lcs_apply norm minLen (some a) (some b) = .ok (some q)) :
    0 ≤ q ∧ q ≤ 1 := by
  have hacc1 := lcs_loop_le minLen (a.length + b.length + 1) a b 0
  have hacc2 := lcs_loop_le minLen (a.length + b.length + 1) b a 0
  rw [Nat.zero_add, min_comm b.length a.length] at hacc2
  rw [Nat.zero_add] at hacc1
  simp only [lcs_apply] at h
  cases h1 : normalize_lcs norm a.length b.length
      (lcs_loop minLen (a.length + b.length + 1) (some a, some b) 0) with
  | error e => rw [h1] at h; cases h
  | ok n1 =>
    rw [h1] at h
    cases h2 : normalize_lcs norm a.length b.length
        (lcs_loop minLen (a.length + b.length + 1) (some b, some a) 0) with
    | error e => rw [h2] at h; cases h
    | ok n2 =>
      rw [h2] at h
      cases h
      rcases normalize_lcs_bounds norm a.length b.length _ n1 hacc1 h1 with ⟨ha1, hb1⟩
      rcases normalize_lcs_bounds norm a.length b.length _ n2 hacc2 h2 with ⟨ha2, hb2⟩
      constructor <;> [linarith; linarith]

theorem qgramScore_bounds (analyzer : List Char → List (List Char))
    (V : Finset (List Char)) (a b : List Char) (q : ℚ)
    (h : qgramScore analyzer V a b = some q) : 0 ≤ q ∧ q ≤ 1 := by
  simp only [qgramScore] at h
  by_cases hz : max (∑ g ∈ V, (analyzer a).count g) (∑ g ∈ V, (analyzer b).count g) = 0
  · rw [if_pos hz] at h
    cases h
  · rw [if_neg hz] at h
    cases h
    have hm : (∑ g ∈ V, min ((analyzer a).count g) ((analyzer b).count g)) ≤
        max (∑ g ∈ V, (analyzer a).count g) (∑ g ∈ V, (analyzer b).count g) := by
      calc (∑ g ∈ V, min ((analyzer a).count g) ((analyzer b).count g)) ≤
          ∑ g ∈ V, (analyzer a).count g :=
            Finset.sum_le_sum (fun g _ => min_le_left _ _)
        _ ≤ _ := le_max_left _ _
    have hpos : (0 : ℚ) <
        ((max (∑ g ∈ V, (analyzer a).count g) (∑ g ∈ V, (analyzer b).count g) : ℕ) : ℚ) := by
      have hp : 0 < max (∑ g ∈ V, (analyzer a).count g) (∑ g ∈ V, (analyzer b).count g) :=
        Nat.pos_of_ne_zero hz
      exact_mod_cast hp
    refine ⟨by positivity, ?_⟩
    rw [div_le_one hpos]
    exact_mod_cast hm

theorem cosineScore_bounds (analyzer : List Char → List (List Char))
    (V : Finset (List Char)) (a b : List Char) (r : ℝ)
    (h : cosineScore analyzer V a b = some r) : 0 ≤ r ∧ r ≤ 1 := by
  simp only [cosineScore] at h
  by_cases hz : Real.sqrt (∑ g ∈ V, ((analyzer a).count g : ℝ) ^ 2) *
      Real.sqrt (∑ g ∈ V, ((analyzer b).count g : ℝ) ^ 2) = 0
  · rw [if_pos hz] at h
    cases h
  · rw [if_neg hz] at h
    cases h
    have hnn : (0 : ℝ) ≤ Real.sqrt (∑ g ∈ V, ((analyzer a).count g : ℝ) ^ 2) *
        Real.sqrt (∑ g ∈ V, ((analyzer b).count g : ℝ) ^ 2) :=
      mul_nonneg (Real.sqrt_nonneg _) (Real.sqrt_nonneg _)
    have hpos : (0 : ℝ) < Real.sqrt (∑ g ∈ V, ((analyzer a).count g : ℝ) ^ 2) *
        Real.sqrt (∑ g ∈ V, ((analyzer b).count g : ℝ) ^ 2) :=
      lt_of_le_of_ne hnn (Ne.symm hz)
    have hab0 : (0 : ℝ) ≤ ∑ g ∈ V, ((analyzer b).count g : ℝ) * ((analyzer a).count g : ℝ) :=
      Finset.sum_nonneg (fun g _ => mul_nonneg (by positivity) (by positivity))
    have hcs : (∑ g ∈ V, ((analyzer b).count g : ℝ) * ((analyzer a).count g : ℝ)) ≤
        Real.sqrt (∑ g ∈ V, ((analyzer a).count g : ℝ) ^ 2) *
        Real.sqrt (∑ g ∈ V, ((analyzer b).count g : ℝ) ^ 2) := by
      have hc := Real.sum_mul_le_sqrt_mul_sqrt V
        (fun g => ((analyzer b).count g : ℝ)) (fun g => ((analyzer a).count g : ℝ))
      calc (∑ g ∈ V, ((analyzer b).count g : ℝ) * ((analyzer a).count g : ℝ)) ≤
          Real.sqrt (∑ g ∈ V, ((analyzer b).count g : ℝ) ^ 2) *
          Real.sqrt (∑ g ∈ V, ((analyzer a).count g : ℝ) ^ 2) := hc
        _ = _ := mul_comm _ _
    exact ⟨div_nonneg hab0 hnn, by rw [div_le_one hpos]; exact hcs⟩

/-- C8 counterexample: the precondition assertion of `smith_waterman_similarity`
accepts `match=5, mismatch=-5, gap_start=5, gap_continue=5` (it only requires
`match >= max(mismatch, gap_start, gap_continue)`), yet with `norm="min"` the
present non-degenerate pair `("A", "BCDE")` scores `4`, outside `[0, 1]`:
positive gap penalties let the running maximum exceed
`match * min(len(a), len(b))`. -/
theorem claim_C8_counterexample :
    max (-5 : ℚ) (max 5 5) ≤ 5 ∧
    sw_apply ⟨5, -5, 5, 5, "min"⟩ (some "A".data) (some "BCDE".data) = .ok (some 4) ∧
    ¬ ((4 : ℚ) ≤ 1) := by
  refine ⟨by norm_num, ?_, by norm_num⟩
  norm_num +decide [sw_apply, compute_score, SW.normalize, swM, swRow, nextCell,
    zeroCell, List.range']

/-- C8 (amended): the normalized metrics stay in `[0,1]` on non-degenerate
present pairs — levenshtein/damerau-levenshtein given the collaborator
contract `distance ≤ max(len)`, q-gram and cosine unconditionally, LCS for
every normalization and any `minLen`, and Smith-Waterman under min/max/mean
normalization **provided additionally** `match > 0` and
`gap_start, gap_continue ≤ 0`: the assertion `match >= max(mismatch,
gap_start, gap_continue)` alone also permits positive gap scores, for which the
normalized result can exceed `1` (see the counterexample). -/
theorem claim_C8 :
    (∀ (dist : List Char → List Char → Except Err ℕ) (a b : List Char) (d : ℕ),
      dist a b = .ok d → d ≤ max a.length b.length → 0 < max a.length b.length →
      ∃ q, levenshtein_apply dist (some a) (some b) = .ok (some q) ∧ 0 ≤ q ∧ q ≤ 1) ∧
    (∀ (dist : List Char → List Char → Except Err ℕ) (a b : List Char) (d : ℕ),
      dist a b = .ok d → d ≤ max a.length b.length → 0 < max a.length b.length →
      ∃ q, damerau_levenshtein_apply dist (some a) (some b) = .ok (some q) ∧
        0 ≤ q ∧ q ≤ 1) ∧
    (∀ analyzer V (a b : List Char) (q : ℚ),
      qgramScore analyzer V a b = some q → 0 ≤ q ∧ q ≤ 1) ∧
    (∀ analyzer V (a b : List Char) (r : ℝ),
      cosineScore analyzer V a b = some r → 0 ≤ r ∧ r ≤ 1) ∧
    (∀ (p : SWParams) (a b : List Char),
      0 < p.matchScore → p.mismatchScore ≤ p.matchScore →
      p.gapStart ≤ 0 → p.gapContinue ≤ 0 →
      0 < a.length → 0 < b.length →
      (p.norm = "min" ∨ p.norm = "max" ∨ p.norm = "mean") →
      ∃ q, sw_apply p (some a) (some b) = .ok (some q) ∧ 0 ≤ q ∧ q ≤ 1) ∧
    (∀ (norm : String) (minLen : ℕ) (a b : List Char) (q : ℚ),
      lcs_apply norm minLen (some a) (some b) = .ok (some q) → 0 ≤ q ∧ q ≤ 1) := by
  have hlev : ∀ (a b : List Char) (d : ℕ),
      d ≤ max a.length b.length → 0 < max a.length b.length →
      0 ≤ 1 - (d : ℚ) / ((max a.length b.length : ℕ) : ℚ) ∧
      1 - (d : ℚ) / ((max a.length b.length : ℕ) : ℚ) ≤ 1 := by
    intro a b d hd hpos
    have hp : (0 : ℚ) < ((max a.length b.length : ℕ) : ℚ) := by exact_mod_cast hpos
    have hd' : (d : ℚ) ≤ ((max a.length b.length : ℕ) : ℚ) := by exact_mod_cast hd
    constructor
    · have : (d : ℚ) / ((max a.length b.length : ℕ) : ℚ) ≤ 1 := by
        rw [div_le_one hp]
        exact hd'
      linarith
    · have : (0 : ℚ) ≤ (d : ℚ) / ((max a.length b.length : ℕ) : ℚ) := by positivity
      linarith
  refine ⟨?_, ?_, ?_, ?_, ?_, ?_⟩
  · intro dist a b d hdist hd hpos
    have hne : ¬ (max a.length b.length = 0) := by omega
    refine ⟨1 - (d : ℚ) / ((max a.length b.length : ℕ) : ℚ), ?_, hlev a b d hd hpos⟩
    simp [levenshtein_apply, hdist, hne]
  · intro dist a b d hdist hd hpos
    have hne : ¬ (max a.length b.length = 0) := by omega
    refine ⟨1 - (d : ℚ) / ((max a.length b.length : ℕ) : ℚ), ?_, hlev a b d hd hpos⟩
    simp [damerau_levenshtein_apply, hdist, hne]
  · exact fun analyzer V a b q h => qgramScore_bounds analyzer V a b q h
  · exact fun analyzer V a b r h => cosineScore_bounds analyzer V a b r h
  · exact fun p a b h1 h2 h3 h4 h5 h6 h7 => sw_apply_bounds p a b h1 h2 h3 h4 h5 h6 h7
  · exact fun norm minLen a b q h => lcs_apply_bounds norm minLen a b q h

theorem claim_C8_witness :
    (∃ q, levenshtein_apply (fun _ _ => .ok 3) (some "kitten".data)
      (some "sitting".data) = .ok (some q) ∧ 0 ≤ q ∧ q ≤ 1) ∧
    (0 ≤ (1 : ℚ) ∧ (1 : ℚ) ≤ 1) ∧
    (∃ q, sw_apply ⟨5, -5, -5, -1, "mean"⟩ (some "a".data) (some "a".data) =
      .ok (some q) ∧ 0 ≤ q ∧ q ≤ 1) ∧
    (0 ≤ (3 / 5 : ℚ) ∧ (3 / 5 : ℚ) ≤ 1) := by
  refine ⟨?_, ?_, ?_, ?_⟩
  · exact claim_C8.1 (fun _ _ => .ok 3) "kitten".data "sitting".data 3 rfl
      (by decide) (by decide)
  · refine claim_C8.2.2.1 (charAnalyzer 2 2) {['a', 'b']} "ab".data "ab".data 1 ?_
    have hc : (charAnalyzer 2 2 "ab".data).count ['a', 'b'] = 1 := by decide
    simp only [qgramScore, Finset.sum_singleton, hc]
    norm_num
  · exact claim_C8.2.2.2.2.1 ⟨5, -5, -5, -1, "mean"⟩ "a".data "a".data
      (by norm_num) (by norm_num) (by norm_num) (by norm_num)
      (by decide) (by decide) (Or.inr (Or.inr rfl))
  · refine claim_C8.2.2.2.2.2 "dice" 2 "ABCDE".data "ABCXE".data (3 / 5) ?_
    have hacc1 : lcs_loop 2 11 (some "ABCDE".data, some "ABCXE".data) 0 = 3 := by decide
    have hacc2 : lcs_loop 2 11 (some "ABCXE".data, some "ABCDE".data) 0 = 3 := by decide
    simp only [lcs_apply]
    norm_num +decide [hacc1, hacc2, normalize_lcs]
